import Mathlib

/-!
# qBittorrent start-up controller

A shallow embedding of `src/main.cpp`: the command-line parser
(`parseCommandLine`), the legal-notice gate (`userAgreesWithLegalNotice`),
the start-up message buffer (`MessagesCollector::collectMessage`), the four
signal handlers and the orchestrating `main`.

Conventions of the embedding.

* A `QString` is a list of characters; a `QStringList` is a list of those.
* The Qt library functions used by the source (`QString::split`,
  `QString::startsWith`, `QStringList::join`, `QString::toInt`) are not part
  of the repository; they are modelled after their Qt documentation.
* `QFileInfo::exists` / `absoluteFilePath` are an oracle (`FileSystem`).
* Everything `main` learns from the outside (console key, clicked button,
  `isRunning()`, `daemon()`, `exec()`) is a field of `World`.
* `main` receives the raw command line `argv`, of which it uses only the count `argc`
  saved at line 131, and separately the list `qApp->arguments()` that the parser reads
  (line 273): the `Application` constructor may remove the options Qt consumes, so the
  two are independent inputs. `qtArguments` models that removal for examples.
* The build-time switches `DISABLE_GUI` and
  `Q_OS_UNIX || STACKTRACE_WIN` are the booleans `World.gui` and
  `World.hasSignals`.
* Every observable action of `main` is logged as an `Effect`, in program order.
* `Application::isRunning()` is not under `src/`. For a single run its answers are the
  fields `World.isRunning` and `World.isRunningAfterDaemon`; for concurrent launches they
  come from an `Arbiter` modelled from the specification, and a `Race` interleaves the
  arbitration steps of the launches (lines 183-229 of `main`) under a schedule.
-/

namespace Qbt

/-! ## Strings -/

/-- A Qt string, as the list of its characters. -/
abbrev QString := List Char

/-- A Qt string list. -/
abbrev QStringList := List QString

/-- The type `QString::SplitBehavior`. -/
inductive SplitBehavior where
  | KeepEmptyParts
  | SkipEmptyParts
  deriving DecidableEq, Repr

/-- The function `QString::startsWith(p)`. -/
def startsWith : QString → QString → Bool
  | _, [] => true
  | [], _ :: _ => false
  | c :: s, d :: p => c == d && startsWith s p

/-- The scanning loop of `QString::split` for a one-character separator: `cur` is the
part read since the last separator. A part is emitted at each separator and at the end of
the string, unless it is empty and the behaviour is `SkipEmptyParts`. -/
def splitFrom (sep : Char) (b : SplitBehavior) : QString → QString → QStringList
  | cur, [] => if cur ≠ [] ∨ b = SplitBehavior.KeepEmptyParts then [cur] else []
  | cur, c :: cs =>
    if c = sep then
      if cur ≠ [] ∨ b = SplitBehavior.KeepEmptyParts then cur :: splitFrom sep b [] cs
      else splitFrom sep b [] cs
    else splitFrom sep b (cur ++ [c]) cs

/-- The function `QString::split(sep, behavior)`. -/
def split (sep : Char) (b : SplitBehavior) (s : QString) : QStringList :=
  splitFrom sep b [] s

/-- The function `QStringList::join(sep)`. -/
def join (sep : QString) : QStringList → QString
  | [] => []
  | [s] => s
  | s :: t :: rest => s ++ sep ++ join sep (t :: rest)

/-- The function `QChar::isSpace()`, the white space `QString::toInt` skips around the
number: tab to carriage return, space, next line, no-break space and the Unicode
separators. -/
def isSpace (c : Char) : Bool :=
  (9 ≤ c.toNat && c.toNat ≤ 13) || c.toNat == 32 || c.toNat == 0x85 || c.toNat == 0xA0 ||
    c.toNat == 0x1680 || (0x2000 ≤ c.toNat && c.toNat ≤ 0x200A) || c.toNat == 0x2028 ||
    c.toNat == 0x2029 || c.toNat == 0x202F || c.toNat == 0x205F || c.toNat == 0x3000

/-- An ASCII decimal digit. -/
def isDigit (c : Char) : Bool :=
  48 ≤ c.toNat && c.toNat ≤ 57

/-- Value of a run of decimal digits read after `acc`; `none` if a character is not a
digit. -/
def digitsValue : Nat → QString → Option Nat
  | acc, [] => some acc
  | acc, c :: cs => if isDigit c then digitsValue (acc * 10 + (c.toNat - 48)) cs else none

/-- A non-empty run of decimal digits. -/
def parseDigits : QString → Option Nat
  | [] => none
  | c :: cs => digitsValue 0 (c :: cs)

/-- The string without leading and trailing white space. -/
def trimmed (s : QString) : QString :=
  ((s.dropWhile isSpace).reverse.dropWhile isSpace).reverse

/-- The integer a string denotes in base 10 in the C locale: optional surrounding white
space, an optional sign, at least one ASCII digit and nothing else; `none` when the string
is not an integer. -/
def parseInt (s : QString) : Option Int :=
  match trimmed s with
  | '-' :: ds => (parseDigits ds).map (fun n => - (n : Int))
  | '+' :: ds => (parseDigits ds).map (fun n => (n : Int))
  | ds => (parseDigits ds).map (fun n => (n : Int))

/-- The function `QString::toInt()`: the value of the string as a 32-bit `int`, and `0`
when the conversion fails (not an integer, or outside the range of `int`). -/
def toInt (s : QString) : Int :=
  match parseInt s with
  | some n => if -2147483648 ≤ n ∧ n ≤ 2147483647 then n else 0
  | none => 0

/-! ## Command line (main.cpp 104-115, 270-310) -/

/-- The part of the file system that `QFileInfo` exposes to the parser. -/
structure FileSystem where
  /-- The function `QFileInfo::exists()`. -/
  fileExists : QString → Bool
  /-- The function `QFileInfo::absoluteFilePath()`. -/
  absoluteFilePath : QString → QString

/-- The struct `QbtCommandLineParameters`. `noSplash` exists in GUI builds and
`shouldDaemonize` in headless builds; the field of the other build keeps its zero value. -/
structure QbtCommandLineParameters where
  showVersion : Bool
  showHelp : Bool
  noSplash : Bool
  shouldDaemonize : Bool
  webUiPort : Int
  torrents : QStringList
  deriving DecidableEq, Repr

/-- The initializer `QbtCommandLineParameters result = {0}`. -/
def QbtCommandLineParameters.zero : QbtCommandLineParameters :=
  { showVersion := false, showHelp := false, noSplash := false, shouldDaemonize := false,
    webUiPort := 0, torrents := [] }

/-- One iteration of the loop of `parseCommandLine` (lines 276-306). -/
def parseArg (gui : Bool) (fs : FileSystem) (result : QbtCommandLineParameters)
    (arg : QString) : QbtCommandLineParameters :=
  if arg = "-v".toList ∨ arg = "--version".toList then
    { result with showVersion := true }
  else if arg = "-h".toList ∨ arg = "--help".toList then
    { result with showHelp := true }
  else if startsWith arg "--webui-port=".toList then
    let parts := split '=' SplitBehavior.KeepEmptyParts arg
    if parts.length = 2 then
      { result with webUiPort := toInt (parts.getLast?.getD []) }
    else result
  else if gui && arg == "--no-splash".toList then
    { result with noSplash := true }
  else if !gui && (arg == "-d".toList || arg == "--daemon".toList) then
    { result with shouldDaemonize := true }
  else if fs.fileExists arg then
    { result with torrents := result.torrents ++ [fs.absoluteFilePath arg] }
  else
    { result with torrents := result.torrents ++ [arg] }

/-- The function `parseCommandLine()` on `appArguments = qApp->arguments()`: the loop runs
over the indices `1 ..`, that is over everything but the program name. -/
def parseCommandLine (gui : Bool) (fs : FileSystem) (appArguments : QStringList) :
    QbtCommandLineParameters :=
  (appArguments.drop 1).foldl (parseArg gui fs) QbtCommandLineParameters.zero

/-! ## Start-up message buffer (main.cpp 78-88) -/

/-- The class `MessagesCollector`: its only member is the list `messages`. -/
structure MessagesCollector where
  messages : QStringList
  deriving DecidableEq, Repr

/-- The slot `MessagesCollector::collectMessage(message)`:
`messages.append(message.split("|", QString::SkipEmptyParts))`. -/
def MessagesCollector.collectMessage (c : MessagesCollector) (message : QString) :
    MessagesCollector :=
  { messages := c.messages ++ split '|' SplitBehavior.SkipEmptyParts message }

/-! ## Persisted preferences -/

/-- The part of `Preferences` that `main.cpp` reads or writes. -/
structure Preferences where
  webUiPort : Int
  acceptedLegal : Bool
  splashScreenDisabled : Bool
  deriving DecidableEq, Repr

/-! ## Signals (main.cpp 235-240, 312-364) -/

/-- The four signals `main.cpp` installs handlers for. -/
inductive Signal where
  | SIGINT
  | SIGTERM
  | SIGSEGV
  | SIGABRT
  deriving DecidableEq, Repr

/-- The four handler functions. -/
inductive HandlerFn where
  | sigintHandler
  | sigtermHandler
  | sigsegvHandler
  | sigabrtHandler
  deriving DecidableEq, Repr

/-- What a signal is bound to: the default disposition (`signal(s, 0)`, that is
`SIG_DFL`) or one of the handlers. -/
inductive Disposition where
  | SIG_DFL
  | handler (h : HandlerFn)
  deriving DecidableEq, Repr

/-- The disposition table of the process, restricted to the four signals. -/
structure SigTable where
  sigint : Disposition
  sigterm : Disposition
  sigsegv : Disposition
  sigabrt : Disposition
  deriving DecidableEq, Repr

/-- The table of a fresh process: every signal has its default disposition. -/
def SigTable.default : SigTable :=
  { sigint := Disposition.SIG_DFL, sigterm := Disposition.SIG_DFL,
    sigsegv := Disposition.SIG_DFL, sigabrt := Disposition.SIG_DFL }

/-- The disposition of a signal. -/
def SigTable.get (t : SigTable) : Signal → Disposition
  | Signal.SIGINT => t.sigint
  | Signal.SIGTERM => t.sigterm
  | Signal.SIGSEGV => t.sigsegv
  | Signal.SIGABRT => t.sigabrt

/-- The library call `signal(s, d)`. -/
def SigTable.signal (t : SigTable) (s : Signal) (d : Disposition) : SigTable :=
  match s with
  | Signal.SIGINT => { t with sigint := d }
  | Signal.SIGTERM => { t with sigterm := d }
  | Signal.SIGSEGV => { t with sigsegv := d }
  | Signal.SIGABRT => { t with sigabrt := d }

/-- How a fault handler reports, by build: `cerr` banner and `print_stacktrace()` (neither
Windows nor Haiku), the `StraceDlg` dialog (`STACKTRACE_WIN`), or nothing. -/
inductive Diagnostics where
  | stderrTrace
  | dialog
  | none
  deriving DecidableEq, Repr

/-- The statements a handler body is made of. -/
inductive Stmt where
  /-- The call `signal(s, d)`. -/
  | signal (s : Signal) (d : Disposition)
  /-- The message `qDebug("Catching ..., exiting cleanly")`. -/
  | debug (s : Signal)
  /-- The call `qApp->exit()`. -/
  | appExit
  /-- The banner on `std::cerr` followed by `print_stacktrace()`. -/
  | printStacktrace (s : Signal)
  /-- The modal `StraceDlg` showing `straceWin::getBacktrace()`. -/
  | stacktraceDialog
  /-- The call `raise(s)`. -/
  | raise (s : Signal)
  deriving DecidableEq, Repr

/-- The diagnostic block of a fault handler (lines 331-342, 350-361). -/
def faultReport (d : Diagnostics) (s : Signal) : List Stmt :=
  match d with
  | Diagnostics.stderrTrace => [Stmt.printStacktrace s]
  | Diagnostics.dialog => [Stmt.stacktraceDialog]
  | Diagnostics.none => []

/-- The body of `sigintHandler` (lines 313-318). -/
def sigintHandler : List Stmt :=
  [Stmt.signal Signal.SIGINT Disposition.SIG_DFL, Stmt.debug Signal.SIGINT, Stmt.appExit]

/-- The body of `sigtermHandler` (lines 320-325). -/
def sigtermHandler : List Stmt :=
  [Stmt.signal Signal.SIGTERM Disposition.SIG_DFL, Stmt.debug Signal.SIGTERM, Stmt.appExit]

/-- The body of `sigsegvHandler` (lines 327-344). -/
def sigsegvHandler (d : Diagnostics) : List Stmt :=
  [Stmt.signal Signal.SIGABRT Disposition.SIG_DFL, Stmt.signal Signal.SIGSEGV Disposition.SIG_DFL]
    ++ faultReport d Signal.SIGSEGV ++ [Stmt.raise Signal.SIGSEGV]

/-- The body of `sigabrtHandler` (lines 346-363). -/
def sigabrtHandler (d : Diagnostics) : List Stmt :=
  [Stmt.signal Signal.SIGABRT Disposition.SIG_DFL, Stmt.signal Signal.SIGSEGV Disposition.SIG_DFL]
    ++ faultReport d Signal.SIGABRT ++ [Stmt.raise Signal.SIGABRT]

/-- The body of a handler function. -/
def HandlerFn.body (d : Diagnostics) : HandlerFn → List Stmt
  | HandlerFn.sigintHandler => Qbt.sigintHandler
  | HandlerFn.sigtermHandler => Qbt.sigtermHandler
  | HandlerFn.sigsegvHandler => Qbt.sigsegvHandler d
  | HandlerFn.sigabrtHandler => Qbt.sigabrtHandler d

/-- What can be observed of signal handling. -/
inductive SigEvent where
  /-- A handler body was entered. -/
  | entered (h : HandlerFn)
  /-- A signal met the default disposition (the operating system acts). -/
  | defaultAction (s : Signal)
  /-- A debug line was written. -/
  | debug (s : Signal)
  /-- A stack trace was printed or shown. -/
  | report (s : Option Signal)
  /-- The event loop was asked to stop. -/
  | exitRequested
  deriving DecidableEq, Repr

/-- The signal-related state of the process. -/
structure SigState where
  table : SigTable
  log : List SigEvent
  deriving DecidableEq, Repr

/-- Execution of a handler body; `deliver` is how a raised signal is delivered. -/
def execStmts (deliver : SigState → Signal → Option SigState) :
    List Stmt → SigState → Option SigState
  | [], st => some st
  | Stmt.signal s d :: rest, st =>
    execStmts deliver rest { st with table := st.table.signal s d }
  | Stmt.debug s :: rest, st =>
    execStmts deliver rest { st with log := st.log ++ [SigEvent.debug s] }
  | Stmt.appExit :: rest, st =>
    execStmts deliver rest { st with log := st.log ++ [SigEvent.exitRequested] }
  | Stmt.printStacktrace s :: rest, st =>
    execStmts deliver rest { st with log := st.log ++ [SigEvent.report (some s)] }
  | Stmt.stacktraceDialog :: rest, st =>
    execStmts deliver rest { st with log := st.log ++ [SigEvent.report Option.none] }
  | Stmt.raise s :: rest, st =>
    match deliver st s with
    | some st1 => execStmts deliver rest st1
    | Option.none => Option.none

/-- Delivery of signal `s`: the default action when the disposition is `SIG_DFL`,
otherwise the handler body runs. `fuel` bounds the nesting of `raise` inside handlers;
`none` means the bound was reached. -/
def deliver (d : Diagnostics) : Nat → SigState → Signal → Option SigState
  | 0, _, _ => Option.none
  | fuel + 1, st, s =>
    match st.table.get s with
    | Disposition.SIG_DFL => some { st with log := st.log ++ [SigEvent.defaultAction s] }
    | Disposition.handler h =>
      execStmts (deliver d fuel) (h.body d) { st with log := st.log ++ [SigEvent.entered h] }

/-- Delivery of a sequence of signals, one after the other. -/
def deliverAll (d : Diagnostics) (fuel : Nat) : SigState → List Signal → Option SigState
  | st, [] => some st
  | st, s :: rest =>
    match deliver d fuel st s with
    | some st1 => deliverAll d fuel st1 rest
    | Option.none => Option.none

/-- The four `signal` calls of `main` (lines 236-239). -/
def installSignalHandlers (t : SigTable) : SigTable :=
  (((t.signal Signal.SIGABRT (Disposition.handler HandlerFn.sigabrtHandler)).signal
    Signal.SIGTERM (Disposition.handler HandlerFn.sigtermHandler)).signal
    Signal.SIGINT (Disposition.handler HandlerFn.sigintHandler)).signal
    Signal.SIGSEGV (Disposition.handler HandlerFn.sigsegvHandler)

/-- How many times a fault-handler body (`sigsegvHandler` or `sigabrtHandler`) was
entered. -/
def faultEntries (log : List SigEvent) : Nat :=
  log.countP (fun e =>
    e = SigEvent.entered HandlerFn.sigsegvHandler ∨ e = SigEvent.entered HandlerFn.sigabrtHandler)

/-! ## The orchestrator (main.cpp 128-268, 401-440) -/

/-- The exit status `EXIT_SUCCESS`. -/
def EXIT_SUCCESS : Int := 0

/-- The exit status `EXIT_FAILURE`. -/
def EXIT_FAILURE : Int := 1

/-- Everything the start-up sequence learns from outside the program. -/
structure World where
  /-- Whether this is a GUI build (`DISABLE_GUI` not defined). -/
  gui : Bool
  /-- Whether `Q_OS_UNIX` or `STACKTRACE_WIN` is defined. -/
  hasSignals : Bool
  fs : FileSystem
  /-- The result of `qputenv("QBITTORRENT", VERSION)`. -/
  qputenvOk : Bool
  /-- The value `getchar()` returns at the console prompt (`-1` is `EOF`). -/
  getcharResult : Int
  /-- Whether `msgBox.clickedButton() == agree_button` after `msgBox.exec()`. -/
  agreeClicked : Bool
  /-- The result of `app->isRunning()` at line 183. -/
  isRunning : Bool
  /-- Whether `daemon(1, 0) == 0`. -/
  daemonOk : Bool
  /-- The result of `isRunning()` of the application re-created after `daemon()`. -/
  isRunningAfterDaemon : Bool
  /-- The messages the `Application` created at line 134 emits through `messageReceived`
  before the receiver takes over (lines 244-247, 257-260), or before `app.reset()` on the
  daemon path, in order. -/
  startupMessages : List QString
  /-- The messages the `Application` re-created at line 219 emits before the loader is
  connected at line 257, in order. -/
  messagesAfterDaemon : List QString
  /-- The value `app->exec()` returns. -/
  execResult : Int

/-- The texts `displayBadArgMessage` is called with. -/
inductive BadArg where
  /-- The text `-v (or --version) must be the single command line parameter.` -/
  | versionNotSingle
  /-- The text `-h (or --help) must be the single command line parameter.` -/
  | helpNotSingle
  /-- The text `--webui-port must specify the correct port (1 to 65535).` -/
  | badPort
  /-- The text `You cannot use -d (or --daemon): qBittorrent is already running for this
  user.` -/
  | daemonWhileRunning
  deriving DecidableEq, Repr

/-- The observable actions of `main`. -/
inductive Effect where
  | displayVersion
  | displayUsage
  | displayBadArgMessage (m : BadArg)
  /-- The call `Preferences::instance()->setWebUiPort(p)`. -/
  | setWebUiPort (p : Int)
  /-- The line `Couldn't set environment variable...` on `std::cerr`. -/
  | envWarning
  /-- The legal notice is shown and an answer awaited (console text or message box). -/
  | legalNoticePrompt
  /-- The call `pref->setAcceptedLegal(true)`. -/
  | setAcceptedLegal
  /-- The call `app->isRunning()`. -/
  | isRunningQuery
  /-- The call `misc::msleep(ms)`. -/
  | msleep (ms : Nat)
  /-- The call `app->sendMessage(m)`. -/
  | sendMessage (m : QString)
  /-- The call `daemon(1, 0)`. -/
  | daemonize
  /-- The message `qCritical("Something went wrong while daemonizing, exiting...")`. -/
  | daemonizeFailed
  | showSplashScreen
  /-- The call `signal(s, h)` of lines 236-239. -/
  | signalInstalled (s : Signal) (h : HandlerFn)
  /-- The receiver is constructed: `MainWindow window(0, torrents)` or
  `HeadlessLoader loader(torrents)`. -/
  | receiverConstructed (torrents : QStringList)
  /-- The call `processParams(messagesCollector->messages)` on the receiver. -/
  | processParams (messages : QStringList)
  /-- The call `app->exec()`. -/
  | exec
  deriving DecidableEq, Repr

/-- What a run of `main` leaves behind. -/
structure Outcome where
  exitCode : Int
  pref : Preferences
  effects : List Effect
  signals : SigTable
  deriving DecidableEq, Repr

/-- The result of `userAgreesWithLegalNotice`: the returned boolean, the preferences
afterwards and what was shown. -/
structure GateResult where
  agreed : Bool
  pref : Preferences
  effects : List Effect
  deriving DecidableEq, Repr

/-- The affirmative answer to the legal notice: in a headless build the key read by
`char ret = getchar()` is `y` or `Y`; in a GUI build the clicked button is `agree_button`. -/
def affirmative (w : World) : Bool :=
  if w.gui then w.agreeClicked
  else w.getcharResult % 256 == 121 || w.getcharResult % 256 == 89

/-- The function `userAgreesWithLegalNotice()` (lines 401-434). -/
def userAgreesWithLegalNotice (w : World) (pref : Preferences) : GateResult :=
  if pref.acceptedLegal then
    { agreed := true, pref := pref, effects := [] }
  else if affirmative w then
    { agreed := true, pref := { pref with acceptedLegal := true },
      effects := [Effect.legalNoticePrompt, Effect.setAcceptedLegal] }
  else
    { agreed := false, pref := pref, effects := [Effect.legalNoticePrompt] }

/-- What the collector holds after an application emitted `messages`: the slot
`collectMessage` runs for each of them when the collector is connected to that application
(`QObject::connect` of line 137), and not at all otherwise. -/
def collectFrom (connected : Bool) (c : MessagesCollector) (messages : List QString) :
    MessagesCollector :=
  if connected then messages.foldl MessagesCollector.collectMessage c else c

/-- The tail of `main` once this process is the only instance (lines 214-267). The
collector is connected to the application of line 134 only: the application re-created at
line 219 on the daemon path emits to no slot until the loader is connected. -/
def runAsOwner (w : World) (params : QbtCommandLineParameters) (pref : Preferences)
    (done : List Effect) : Outcome :=
  let stop (code : Int) (eff : List Effect) : Outcome :=
    { exitCode := code, pref := pref, effects := eff, signals := SigTable.default }
  let collected : MessagesCollector := collectFrom true { messages := [] } w.startupMessages
  let start (collector : MessagesCollector) (eff : List Effect) : Outcome :=
    let installs : List Effect :=
      if w.hasSignals then
        [Effect.signalInstalled Signal.SIGABRT HandlerFn.sigabrtHandler,
         Effect.signalInstalled Signal.SIGTERM HandlerFn.sigtermHandler,
         Effect.signalInstalled Signal.SIGINT HandlerFn.sigintHandler,
         Effect.signalInstalled Signal.SIGSEGV HandlerFn.sigsegvHandler]
      else []
    { exitCode := w.execResult, pref := pref,
      effects := eff ++ installs ++
        [Effect.receiverConstructed params.torrents, Effect.processParams collector.messages,
         Effect.exec],
      signals := if w.hasSignals then installSignalHandlers SigTable.default
                 else SigTable.default }
  if w.gui then
    if !(params.noSplash || pref.splashScreenDisabled) then
      start collected (done ++ [Effect.showSplashScreen])
    else start collected done
  else if params.shouldDaemonize then
    if w.daemonOk then
      if w.isRunningAfterDaemon then
        stop EXIT_FAILURE (done ++ [Effect.daemonize, Effect.isRunningQuery])
      else
        start (collectFrom false collected w.messagesAfterDaemon)
          (done ++ [Effect.daemonize, Effect.isRunningQuery])
    else stop EXIT_FAILURE (done ++ [Effect.daemonize, Effect.daemonizeFailed])
  else start collected done

/-- The function `main(argc, argv)` (lines 128-268). `argv` is the raw command line, with
`argc = argv.length`; `isOneArg` is taken from it before the `Application` constructor
"may change it" (lines 130-131). `appArguments` is the list `qApp->arguments()` that
`parseCommandLine` reads (line 273), that is the command line after the constructor
removed the options Qt consumes. -/
def main (w : World) (pref : Preferences) (argv : QStringList) (appArguments : QStringList) :
    Outcome :=
  let isOneArg : Bool := argv.length == 2
  let params := parseCommandLine w.gui w.fs appArguments
  let stop (code : Int) (pref1 : Preferences) (eff : List Effect) : Outcome :=
    { exitCode := code, pref := pref1, effects := eff, signals := SigTable.default }
  if params.showVersion then
    if isOneArg then stop EXIT_SUCCESS pref [Effect.displayVersion]
    else stop EXIT_FAILURE pref [Effect.displayBadArgMessage BadArg.versionNotSingle]
  else if params.showHelp then
    if isOneArg then stop EXIT_SUCCESS pref [Effect.displayUsage]
    else stop EXIT_FAILURE pref [Effect.displayBadArgMessage BadArg.helpNotSingle]
  else if 0 < params.webUiPort ∧ params.webUiPort ≤ 65535 then
    let pref1 : Preferences := { pref with webUiPort := params.webUiPort }
    let eff1 : List Effect :=
      Effect.setWebUiPort params.webUiPort ::
        (if w.qputenvOk then [] else [Effect.envWarning])
    let gate := userAgreesWithLegalNotice w pref1
    if !gate.agreed then stop EXIT_SUCCESS gate.pref (eff1 ++ gate.effects)
    else if w.isRunning then
      if !w.gui && params.shouldDaemonize then
        stop EXIT_FAILURE gate.pref
          (eff1 ++ gate.effects ++
            [Effect.isRunningQuery, Effect.displayBadArgMessage BadArg.daemonWhileRunning])
      else if !params.torrents.isEmpty then
        stop EXIT_SUCCESS gate.pref
          (eff1 ++ gate.effects ++
            [Effect.isRunningQuery, Effect.msleep 300,
             Effect.sendMessage (join "|".toList params.torrents)])
      else
        stop EXIT_SUCCESS gate.pref
          (eff1 ++ gate.effects ++
            [Effect.isRunningQuery, Effect.msleep 300, Effect.sendMessage "qbt://show".toList])
    else runAsOwner w params gate.pref (eff1 ++ gate.effects ++ [Effect.isRunningQuery])
  else stop EXIT_FAILURE pref [Effect.displayBadArgMessage BadArg.badPort]

/-! ## Vocabulary of the specification -/

/-- The tokens `-v` and `--version`. -/
def isVersionArg (a : QString) : Bool :=
  a == "-v".toList || a == "--version".toList

/-- The tokens `-h` and `--help`. -/
def isHelpArg (a : QString) : Bool :=
  a == "-h".toList || a == "--help".toList

/-- A token of the form `--webui-port=...`. -/
def isPortArg (a : QString) : Bool :=
  startsWith a "--webui-port=".toList

/-- The recognized flags, as the specification lists them: `-v`, `--version`, `-h`,
`--help`, any token starting with `--webui-port=`, and `--no-splash` in the GUI build or
`-d` / `--daemon` in the headless build. -/
def isRecognizedFlag (gui : Bool) (a : QString) : Bool :=
  isVersionArg a || isHelpArg a || isPortArg a ||
    (if gui then a == "--no-splash".toList else a == "-d".toList || a == "--daemon".toList)

/-- A target as the specification describes it: the absolute path when the token names an
existing file, the token itself otherwise. -/
def resolveTarget (fs : FileSystem) (a : QString) : QString :=
  if fs.fileExists a then fs.absoluteFilePath a else a

/-- The targets the specification expects for an argument list: the tokens that are not
recognized flags, in argument order, each resolved. -/
def expectedTargets (gui : Bool) (fs : FileSystem) (args : QStringList) : QStringList :=
  (args.filter (fun a => !isRecognizedFlag gui a)).map (resolveTarget fs)

/-- The decimal text of an integer, as `toString` writes it. -/
def decimalText (p : Int) : QString :=
  (toString p).toList

/-- The effects that can only follow a passed port check: everything but the version and
usage output, the usage errors and the write of the web UI port. -/
def Effect.afterValidation : Effect → Bool
  | Effect.displayVersion => false
  | Effect.displayUsage => false
  | Effect.displayBadArgMessage m => m == BadArg.daemonWhileRunning
  | Effect.setWebUiPort _ => false
  | _ => true

/-- The effects of the owner's tail of `main`. -/
def Effect.ownerOnly : Effect → Bool
  | Effect.daemonize => true
  | Effect.daemonizeFailed => true
  | Effect.isRunningQuery => true
  | Effect.showSplashScreen => true
  | Effect.signalInstalled _ _ => true
  | Effect.receiverConstructed _ => true
  | Effect.processParams _ => true
  | Effect.exec => true
  | _ => false

/-- The calls `app->sendMessage(...)`. -/
def Effect.isSendMessage : Effect → Bool
  | Effect.sendMessage _ => true
  | _ => false

/-- The ways `main` ends on a short-circuit or a usage error: version or usage output, the
single-parameter errors and the bad-port error. -/
def Effect.usageEnding : Effect → Bool
  | Effect.displayVersion => true
  | Effect.displayUsage => true
  | Effect.displayBadArgMessage m => m != BadArg.daemonWhileRunning
  | _ => false

/-- What a fault handler's diagnostic block leaves in the log. -/
def reportEvents (d : Diagnostics) (s : Signal) : List SigEvent :=
  match d with
  | Diagnostics.stderrTrace => [SigEvent.report (some s)]
  | Diagnostics.dialog => [SigEvent.report Option.none]
  | Diagnostics.none => []

/-- A fault signal: `SIGSEGV` or `SIGABRT`. -/
def Signal.isFault : Signal → Bool
  | Signal.SIGSEGV => true
  | Signal.SIGABRT => true
  | _ => false

/-- The states a run can be in once `main` has installed the handlers: each graceful-stop
signal is bound to its own handler or to the default; the two fault signals are either
both bound to their handlers, no fault handler having run, or both default, a fault
handler having run at most once. -/
def SigState.wellFormed (st : SigState) : Prop :=
  (st.table.sigint = Disposition.SIG_DFL ∨
    st.table.sigint = Disposition.handler HandlerFn.sigintHandler) ∧
  (st.table.sigterm = Disposition.SIG_DFL ∨
    st.table.sigterm = Disposition.handler HandlerFn.sigtermHandler) ∧
  ((st.table.sigsegv = Disposition.handler HandlerFn.sigsegvHandler ∧
      st.table.sigabrt = Disposition.handler HandlerFn.sigabrtHandler ∧
      faultEntries st.log = 0) ∨
    (st.table.sigsegv = Disposition.SIG_DFL ∧ st.table.sigabrt = Disposition.SIG_DFL ∧
      faultEntries st.log ≤ 1))

/-- How the `QApplication` constructor of a GUI build treats a token, after the Qt
documentation (Qt is not part of the repository): `some true` for an option removed together
with the next token, its value (`-style`, `-stylesheet`, `-session`, `-graphicssystem`);
`some false` for an option removed alone (`-reverse`, `-widgetcount`, and the forms
`-style=...`, `-stylesheet=...`, `-session=...`); `none` for a token left in place. -/
def qtOption (a : QString) : Option Bool :=
  if a = "-style".toList ∨ a = "-stylesheet".toList ∨ a = "-session".toList ∨
      a = "-graphicssystem".toList then some true
  else if a = "-reverse".toList ∨ a = "-widgetcount".toList ∨
      startsWith a "-style=".toList ∨ startsWith a "-stylesheet=".toList ∨
      startsWith a "-session=".toList then some false
  else none

/-- The arguments the `QApplication` constructor leaves, program name excluded: an option
with a value is removed with the token that follows it, and is left in place when it is
the last token. -/
def qtStrip : QStringList → QStringList
  | [] => []
  | [a] => if qtOption a = some false then [] else [a]
  | a :: b :: rest =>
    match qtOption a with
    | some true => qtStrip rest
    | some false => qtStrip (b :: rest)
    | none => a :: qtStrip (b :: rest)

/-- The list `qApp->arguments()` of a GUI build for the raw command line `argv`. -/
def qtArguments : QStringList → QStringList
  | [] => []
  | prog :: args => prog :: qtStrip args

/-- A world for examples: a headless build in which only `/tmp/a.torrent` exists. -/
def sampleWorld : World :=
  { gui := false, hasSignals := true,
    fs := { fileExists := fun a => a == "/tmp/a.torrent".toList, absoluteFilePath := fun a => a },
    qputenvOk := true, getcharResult := 110, agreeClicked := false, isRunning := true,
    daemonOk := true, isRunningAfterDaemon := false, startupMessages := [],
    messagesAfterDaemon := [], execResult := 0 }

/-- Preferences for examples: port 8080, legal notice not yet accepted. -/
def samplePref : Preferences :=
  { webUiPort := 8080, acceptedLegal := false, splashScreenDisabled := false }

/-- A GUI world for examples, in which another instance is running. -/
def sampleGuiWorld : World :=
  { sampleWorld with gui := true }

/-- Preferences for examples: port 8080, legal notice accepted. -/
def acceptedPref : Preferences :=
  { webUiPort := 8080, acceptedLegal := true, splashScreenDisabled := false }

/-! ## Arbitration between concurrent launches (main.cpp 133-134, 182-229) -/

/-- The application identity of line 134: `"qBittorrent-" + misc::getUserIDString()`. -/
def applicationId (userId : QString) : QString :=
  "qBittorrent-".toList ++ userId

/-- Modelled from the spec: the Identity Arbiter behind `Application::isRunning()`
(`application.h` and the single-application library are not under `src/`). Each
application identity names one exclusive resource; `holder id` is the process that holds
the resource of identity `id`, if any. -/
structure Arbiter where
  holder : QString → Option Nat

/-- Modelled from the spec: the call `app->isRunning()` of process `pid` for identity `id`,
an atomic check-and-acquire. When nobody holds the resource the caller takes it and the
answer is `false`; when the caller holds it the answer is `false`; when another process
holds it the answer is `true` and nothing changes. -/
def Arbiter.isRunning (a : Arbiter) (id : QString) (pid : Nat) : Bool × Arbiter :=
  match a.holder id with
  | none => (false, { holder := Function.update a.holder id (some pid) })
  | some q => if q = pid then (false, a) else (true, a)

/-- Modelled from the spec: the end of the holder. Ownership of the resource is tied to the
lifetime of the holding application object and process, so `app.reset()` followed by
`daemon()` (lines 217-218) gives the resource back. -/
def Arbiter.release (a : Arbiter) (id : QString) (pid : Nat) : Arbiter :=
  if a.holder id = some pid then { holder := Function.update a.holder id none } else a

/-- A launch that takes part in the arbitration: the user it runs for and the inputs of its
`main`. The fields `isRunning` and `isRunningAfterDaemon` of `w` are not read here: the
arbiter supplies those answers. -/
structure Launch where
  userId : QString
  w : World
  pref : Preferences
  /-- The raw command line. -/
  argv : QStringList
  /-- The list `qApp->arguments()` of the launch. -/
  appArguments : QStringList

/-- The launch passes argument validation and the consent gate, so that its `main` reaches
the check of line 183. -/
def Launch.reachesArbitration (l : Launch) : Prop :=
  (parseCommandLine l.w.gui l.w.fs l.appArguments).showVersion = false ∧
  (parseCommandLine l.w.gui l.w.fs l.appArguments).showHelp = false ∧
  (0 < (parseCommandLine l.w.gui l.w.fs l.appArguments).webUiPort ∧
    (parseCommandLine l.w.gui l.w.fs l.appArguments).webUiPort ≤ 65535) ∧
  (l.pref.acceptedLegal = true ∨ affirmative l.w = true)

/-- The launch requests daemon mode: a headless build with `params.shouldDaemonize`. -/
def Launch.daemon (l : Launch) : Bool :=
  !l.w.gui && (parseCommandLine l.w.gui l.w.fs l.appArguments).shouldDaemonize

/-- Where a launch stands with respect to the arbitration. -/
inductive Phase where
  /-- About to call `app->isRunning()` at line 183. -/
  | atCheck
  /-- A daemon launch that got `false` at line 183 and is about to destroy its application
  and call `daemon()` (lines 216-218). -/
  | beforeReset
  /-- A daemon launch past `app.reset()`, about to re-create the application and call
  `isRunning()` again (lines 218-220). -/
  | afterReset
  /-- The launch goes on to install the handlers, construct the receiver and run the
  event loop (lines 235-267), holding the resource. -/
  | owner
  /-- The launch sent its message to the running instance and returned `EXIT_SUCCESS`
  (lines 201-211). -/
  | client
  /-- The launch returned `EXIT_FAILURE` (lines 186-188, 222, 226-227). -/
  | failed
  deriving DecidableEq, Repr

/-- What a launch does with the answer of `isRunning()` at line 183 (lines 183-217). -/
def afterCheck (l : Launch) (running : Bool) : Phase :=
  if running then
    if l.daemon then Phase.failed else Phase.client
  else if l.daemon then Phase.beforeReset else Phase.owner

/-- What a daemon launch does after `app.reset()`: with `daemon()` successful, the answer
of the second `isRunning()` decides (lines 218-223); otherwise it fails (lines 225-227). -/
def afterDaemon (l : Launch) (running : Bool) : Phase :=
  if l.w.daemonOk then
    if running then Phase.failed else Phase.owner
  else Phase.failed

/-- The state of a race: the arbiter, the phase of every launch and the answers each launch
got from `isRunning()`, in order. -/
structure Race where
  arbiter : Arbiter
  phase : Nat → Phase
  observed : Nat → List Bool

/-- The start of a race: no resource is held and every launch is about to call
`isRunning()` for the first time. -/
def Race.start : Race :=
  { arbiter := { holder := fun _ => none }, phase := fun _ => Phase.atCheck,
    observed := fun _ => [] }

/-- One atomic step of launch `p`; launches that are owner, client or failed do not move. -/
def Race.step (launch : Nat → Launch) (st : Race) (p : Nat) : Race :=
  match st.phase p with
  | Phase.atCheck =>
    let r := st.arbiter.isRunning (applicationId (launch p).userId) p
    { arbiter := r.2,
      phase := Function.update st.phase p (afterCheck (launch p) r.1),
      observed := Function.update st.observed p (st.observed p ++ [r.1]) }
  | Phase.beforeReset =>
    { st with
      arbiter := st.arbiter.release (applicationId (launch p).userId) p,
      phase := Function.update st.phase p Phase.afterReset }
  | Phase.afterReset =>
    if (launch p).w.daemonOk then
      let r := st.arbiter.isRunning (applicationId (launch p).userId) p
      { arbiter := r.2,
        phase := Function.update st.phase p (afterDaemon (launch p) r.1),
        observed := Function.update st.observed p (st.observed p ++ [r.1]) }
    else
      { st with phase := Function.update st.phase p (afterDaemon (launch p) false) }
  | _ => st

/-- The race of the launches under a schedule: the list of the launches that take the
successive steps. -/
def Race.run (launch : Nat → Launch) (schedule : List Nat) : Race :=
  schedule.foldl (Race.step launch) Race.start

/-- Single ownership among the launches `0 .. n-1`, as the specification states it: one of
them got `false` from `isRunning()` and is the owner, every other one got `true` and is a
client. -/
def Race.singleOwnership (st : Race) (n : Nat) : Prop :=
  ∃ p, p < n ∧ st.observed p = [false] ∧ st.phase p = Phase.owner ∧
    ∀ q, q < n → q ≠ p → st.observed q = [true] ∧ st.phase q = Phase.client

/-- The phase a finished `main` shows, if any: owner when it entered the event loop
without sending a message; client when it sent a message, did not enter the event loop and
returned `EXIT_SUCCESS`; failed when it did neither and returned `EXIT_FAILURE`. -/
def Outcome.phase (o : Outcome) : Option Phase :=
  if Effect.exec ∈ o.effects then
    if o.effects.any Effect.isSendMessage then none else some Phase.owner
  else if o.effects.any Effect.isSendMessage then
    if o.exitCode = EXIT_SUCCESS then some Phase.client else none
  else if o.exitCode = EXIT_FAILURE then some Phase.failed else none

/-- The run of `main` of launch `p` with the answers the arbiter gave it in the race: the
first answer for the call of line 183, the second for the call of line 220. -/
def Race.mainOf (launch : Nat → Launch) (st : Race) (p : Nat) : Outcome :=
  main
    { (launch p).w with
      isRunning := (st.observed p).getD 0 false,
      isRunningAfterDaemon := (st.observed p).getD 1 false }
    (launch p).pref (launch p).argv (launch p).appArguments

/-- Two headless launches for user `1000`, for examples: launch `0` asks for daemon mode,
every other launch does not. -/
def sampleLaunch (p : Nat) : Launch :=
  { userId := "1000".toList, w := sampleWorld, pref := acceptedPref,
    argv := if p = 0 then ["qbittorrent".toList, "--webui-port=9000".toList, "-d".toList]
            else ["qbittorrent".toList, "--webui-port=9000".toList],
    appArguments :=
      if p = 0 then ["qbittorrent".toList, "--webui-port=9000".toList, "-d".toList]
      else ["qbittorrent".toList, "--webui-port=9000".toList] }

/-- Launches of a GUI build for user `1000`, for examples. -/
def sampleGuiLaunch (_p : Nat) : Launch :=
  { userId := "1000".toList, w := { sampleWorld with gui := true }, pref := acceptedPref,
    argv := ["qbittorrent".toList, "--webui-port=9000".toList],
    appArguments := ["qbittorrent".toList, "--webui-port=9000".toList] }

/-- The arbiter and the phases agree: a launch holds the resource of its identity exactly
when it is the owner or a daemon launch that has not yet destroyed its application. -/
def Race.consistent (launch : Nat → Launch) (st : Race) : Prop :=
  ∀ p, st.arbiter.holder (applicationId (launch p).userId) = some p ↔
    (st.phase p = Phase.owner ∨ st.phase p = Phase.beforeReset)

/-- The shape of a race without daemon launches once launch `first` has moved: `first`
holds the resource and is the owner with the single answer `false`; every other launch
that has moved is a client with the single answer `true`; the others have not called
`isRunning()` yet. -/
def Race.settled (launch : Nat → Launch) (st : Race) (first : Nat) (moved : List Nat) :
    Prop :=
  st.arbiter.holder (applicationId (launch first).userId) = some first ∧
  st.phase first = Phase.owner ∧ st.observed first = [false] ∧ first ∈ moved ∧
  (∀ q ∈ moved, q ≠ first → st.phase q = Phase.client ∧ st.observed q = [true]) ∧
  (∀ q, q ∉ moved → st.phase q = Phase.atCheck ∧ st.observed q = [])

/-- The phase a launch ends in, given the answer `b1` of `isRunning()` at line 183 and, for
a daemon launch that got `false`, the answer `b2` of the second call at line 220. -/
def Launch.finalPhase (l : Launch) (b1 b2 : Bool) : Phase :=
  match afterCheck l b1 with
  | Phase.beforeReset => afterDaemon l b2
  | ph => ph

/-- The phases of a race are those the answers explain: no answer before the first call;
the single answer `false` for a daemon launch between its two calls; and a finished launch
is in the phase `main` ends in with the answers it got. -/
def Race.traced (launch : Nat → Launch) (st : Race) : Prop :=
  ∀ p,
    (st.phase p = Phase.atCheck → st.observed p = []) ∧
    (st.phase p = Phase.beforeReset ∨ st.phase p = Phase.afterReset →
      st.observed p = [false] ∧ (launch p).daemon = true) ∧
    (st.phase p = Phase.owner ∨ st.phase p = Phase.client ∨ st.phase p = Phase.failed →
      st.phase p =
        (launch p).finalPhase ((st.observed p).getD 0 false) ((st.observed p).getD 1 false))

/-! ## Lemmas about the parser -/

theorem parseArg_showVersion (gui : Bool) (fs : FileSystem) (r : QbtCommandLineParameters)
    (a : QString) : (parseArg gui fs r a).showVersion = (r.showVersion || isVersionArg a) := by
  simp only [parseArg, isVersionArg]
  split_ifs <;> simp_all

theorem parseArg_showHelp (gui : Bool) (fs : FileSystem) (r : QbtCommandLineParameters)
    (a : QString) : (parseArg gui fs r a).showHelp = (r.showHelp || isHelpArg a) := by
  simp only [parseArg, isHelpArg]
  split_ifs with h1 <;> simp_all
  rcases h1 with h1 | h1 <;> subst h1 <;> simp

theorem parseArg_torrents (gui : Bool) (fs : FileSystem) (r : QbtCommandLineParameters)
    (a : QString) :
    (parseArg gui fs r a).torrents =
      r.torrents ++ (if isRecognizedFlag gui a then [] else [resolveTarget fs a]) := by
  simp only [parseArg, isRecognizedFlag, isVersionArg, isHelpArg, isPortArg, resolveTarget]
  cases gui <;> split_ifs <;> simp_all

theorem parseArg_webUiPort_of_not_port (gui : Bool) (fs : FileSystem)
    (r : QbtCommandLineParameters) (a : QString) (h : isPortArg a = false) :
    (parseArg gui fs r a).webUiPort = r.webUiPort := by
  simp only [isPortArg] at h
  simp only [parseArg]
  split_ifs <;> simp_all

theorem foldl_showVersion (gui : Bool) (fs : FileSystem) (args : QStringList) :
    ∀ r : QbtCommandLineParameters,
      (args.foldl (parseArg gui fs) r).showVersion = (r.showVersion || args.any isVersionArg) := by
  induction args with
  | nil => intro r; simp
  | cons a rest ih => intro r; simp [ih, parseArg_showVersion, Bool.or_assoc]

theorem foldl_showHelp (gui : Bool) (fs : FileSystem) (args : QStringList) :
    ∀ r : QbtCommandLineParameters,
      (args.foldl (parseArg gui fs) r).showHelp = (r.showHelp || args.any isHelpArg) := by
  induction args with
  | nil => intro r; simp
  | cons a rest ih => intro r; simp [ih, parseArg_showHelp, Bool.or_assoc]

theorem foldl_torrents (gui : Bool) (fs : FileSystem) (args : QStringList) :
    ∀ r : QbtCommandLineParameters,
      (args.foldl (parseArg gui fs) r).torrents = r.torrents ++ expectedTargets gui fs args := by
  induction args with
  | nil => intro r; simp [expectedTargets]
  | cons a rest ih =>
    intro r
    simp only [List.foldl_cons, ih, parseArg_torrents]
    unfold expectedTargets
    cases h : isRecognizedFlag gui a <;> simp [h]

theorem foldl_webUiPort_of_no_port (gui : Bool) (fs : FileSystem) (args : QStringList) :
    ∀ r : QbtCommandLineParameters, (∀ a ∈ args, isPortArg a = false) →
      (args.foldl (parseArg gui fs) r).webUiPort = r.webUiPort := by
  induction args with
  | nil => intro r _; rfl
  | cons a rest ih =>
    intro r h
    simp only [List.foldl_cons]
    rw [ih _ (fun b hb => h b (List.mem_cons_of_mem _ hb)),
      parseArg_webUiPort_of_not_port _ _ _ _ (h a (List.mem_cons_self _ _))]

theorem any_eq_false_of_forall {α : Type} (p : α → Bool) (l : List α)
    (h : ∀ a ∈ l, p a = false) : l.any p = false := by
  induction l with
  | nil => rfl
  | cons a rest ih =>
    simp only [List.any_cons, h a (List.mem_cons_self _ _), Bool.false_or]
    exact ih (fun b hb => h b (List.mem_cons_of_mem _ hb))

theorem parse_showVersion (gui : Bool) (fs : FileSystem) (prog : QString) (args : QStringList) :
    (parseCommandLine gui fs (prog :: args)).showVersion = args.any isVersionArg := by
  simp [parseCommandLine, foldl_showVersion, QbtCommandLineParameters.zero]

theorem parse_showHelp (gui : Bool) (fs : FileSystem) (prog : QString) (args : QStringList) :
    (parseCommandLine gui fs (prog :: args)).showHelp = args.any isHelpArg := by
  simp [parseCommandLine, foldl_showHelp, QbtCommandLineParameters.zero]

theorem parse_torrents (gui : Bool) (fs : FileSystem) (prog : QString) (args : QStringList) :
    (parseCommandLine gui fs (prog :: args)).torrents = expectedTargets gui fs args := by
  simp [parseCommandLine, foldl_torrents, QbtCommandLineParameters.zero]

/-! ## C1: a launch without `--webui-port=` -/

/-- C1 (the code departs from the claim): for every argument list with no token starting
with `--webui-port=` and no `-v`/`--version`/`-h`/`--help` token, the parsed port is the
zero of the initializer, and `main` stops at the port check: it prints the bad-port
message and returns `EXIT_FAILURE`, without reaching the consent gate or the arbiter. -/
theorem main_without_port_fails (w : World) (pref : Preferences) (argv : QStringList)
    (prog : QString) (args : QStringList)
    (h : ∀ a ∈ args, isPortArg a = false ∧ isVersionArg a = false ∧ isHelpArg a = false) :
    (parseCommandLine w.gui w.fs (prog :: args)).webUiPort = 0 ∧
    main w pref argv (prog :: args) =
      { exitCode := EXIT_FAILURE, pref := pref,
        effects := [Effect.displayBadArgMessage BadArg.badPort],
        signals := SigTable.default } := by
  have hv : (parseCommandLine w.gui w.fs (prog :: args)).showVersion = false := by
    rw [parse_showVersion]; exact any_eq_false_of_forall _ _ (fun a ha => (h a ha).2.1)
  have hh : (parseCommandLine w.gui w.fs (prog :: args)).showHelp = false := by
    rw [parse_showHelp]; exact any_eq_false_of_forall _ _ (fun a ha => (h a ha).2.2)
  have hp : (parseCommandLine w.gui w.fs (prog :: args)).webUiPort = 0 := by
    simp only [parseCommandLine, List.drop_succ_cons, List.drop_zero]
    rw [foldl_webUiPort_of_no_port _ _ _ _ (fun a ha => (h a ha).1)]
    rfl
  refine ⟨hp, ?_⟩
  simp only [main, hv, hh, hp]
  simp

/-- C1, at the argument list of the specification's example: the single argument
`magnet:?xt=...` makes `main` fail at the port check. -/
theorem main_without_port_fails_witness :
    (∀ a ∈ ["magnet:?xt=...".toList],
        isPortArg a = false ∧ isVersionArg a = false ∧ isHelpArg a = false) ∧
    (parseCommandLine sampleWorld.gui sampleWorld.fs
        ("qbittorrent".toList :: ["magnet:?xt=...".toList])).webUiPort = 0 ∧
    main sampleWorld samplePref ["qbittorrent".toList, "magnet:?xt=...".toList]
        ("qbittorrent".toList :: ["magnet:?xt=...".toList]) =
      { exitCode := EXIT_FAILURE, pref := samplePref,
        effects := [Effect.displayBadArgMessage BadArg.badPort],
        signals := SigTable.default } :=
  ⟨by decide,
    main_without_port_fails sampleWorld samplePref
      ["qbittorrent".toList, "magnet:?xt=...".toList] "qbittorrent".toList
      ["magnet:?xt=...".toList] (by decide)⟩

/-! ## Lemmas about `split` and `join` -/

theorem splitFrom_append_of_not_mem (sep : Char) (b : SplitBehavior) (t : QString)
    (ht : sep ∉ t) : ∀ (cur rest : QString),
      splitFrom sep b cur (t ++ rest) = splitFrom sep b (cur ++ t) rest := by
  induction t with
  | nil => intro cur rest; simp
  | cons c t ih =>
    intro cur rest
    have hc : c ≠ sep := fun h => ht (by simp [h])
    have ht1 : sep ∉ t := fun h => ht (List.mem_cons_of_mem _ h)
    have e : (c :: t) ++ rest = c :: (t ++ rest) := rfl
    rw [e, splitFrom, if_neg hc, ih ht1]
    simp

theorem splitFrom_of_not_mem (sep : Char) (b : SplitBehavior) (cur t : QString)
    (ht : sep ∉ t) :
    splitFrom sep b cur t =
      if cur ++ t ≠ [] ∨ b = SplitBehavior.KeepEmptyParts then [cur ++ t] else [] := by
  have h := splitFrom_append_of_not_mem sep b t ht cur []
  simp only [List.append_nil] at h
  rw [h, splitFrom]

theorem splitFrom_keep_ne_nil (sep : Char) (s : QString) :
    ∀ cur : QString, splitFrom sep SplitBehavior.KeepEmptyParts cur s ≠ [] := by
  induction s with
  | nil => intro cur; simp [splitFrom]
  | cons c s ih =>
    intro cur
    by_cases hc : c = sep
    · simp [splitFrom, hc]
    · simp only [splitFrom, hc, if_false]; exact ih _

theorem splitFrom_keep_length_of_mem (sep : Char) (s : QString) (hs : sep ∈ s) :
    ∀ cur : QString, 2 ≤ (splitFrom sep SplitBehavior.KeepEmptyParts cur s).length := by
  induction s with
  | nil => simp at hs
  | cons c s ih =>
    intro cur
    by_cases hc : c = sep
    · have hne := splitFrom_keep_ne_nil sep s []
      have : 1 ≤ (splitFrom sep SplitBehavior.KeepEmptyParts [] s).length := by
        cases hsp : splitFrom sep SplitBehavior.KeepEmptyParts [] s with
        | nil => exact absurd hsp hne
        | cons x xs => simp
      simp only [splitFrom, hc, or_true, if_true, List.length_cons]
      omega
    · have hs1 : sep ∈ s := by
        rcases List.mem_cons.mp hs with h | h
        · exact absurd h.symm hc
        · exact h
      simp only [splitFrom, hc, if_false]
      exact ih hs1 _

/-- The parts of a `--webui-port=v` token: two when `v` has no `=`, more otherwise. -/
theorem split_port_token (v : QString) :
    (('=' ∉ v) →
      split '=' SplitBehavior.KeepEmptyParts ("--webui-port=".toList ++ v) =
        ["--webui-port".toList, v]) ∧
    (('=' ∈ v) →
      (split '=' SplitBehavior.KeepEmptyParts ("--webui-port=".toList ++ v)).length ≠ 2) := by
  have hsplit : split '=' SplitBehavior.KeepEmptyParts ("--webui-port=".toList ++ v) =
      "--webui-port".toList :: splitFrom '=' SplitBehavior.KeepEmptyParts [] v := by
    have h0 : "--webui-port=".toList ++ v = "--webui-port".toList ++ ('=' :: v) := by
      simp
    rw [split, h0, splitFrom_append_of_not_mem _ _ _ (by decide)]
    simp [splitFrom]
  constructor
  · intro hv
    rw [hsplit, splitFrom_of_not_mem _ _ _ _ hv]
    simp
  · intro hv
    rw [hsplit]
    have := splitFrom_keep_length_of_mem '=' v hv []
    simp only [List.length_cons]
    omega

theorem startsWith_append (p s : QString) : startsWith (p ++ s) p = true := by
  induction p with
  | nil => cases s <;> rfl
  | cons c p ih => simp [startsWith, ih]

theorem isPortArg_port_token (v : QString) : isPortArg ("--webui-port=".toList ++ v) = true :=
  startsWith_append _ _

theorem isVersionArg_port_token (v : QString) :
    isVersionArg ("--webui-port=".toList ++ v) = false := by
  simp [isVersionArg]

theorem isHelpArg_port_token (v : QString) :
    isHelpArg ("--webui-port=".toList ++ v) = false := by
  simp [isHelpArg]

/-- The loop body on a `--webui-port=v` token: the port becomes `toInt v` when `v` has no
`=`, and nothing changes otherwise. -/
theorem parseArg_port_token (gui : Bool) (fs : FileSystem) (r : QbtCommandLineParameters)
    (v : QString) :
    parseArg gui fs r ("--webui-port=".toList ++ v) =
      if '=' ∈ v then r else { r with webUiPort := toInt v } := by
  have h1 := isVersionArg_port_token v
  have h2 := isHelpArg_port_token v
  have h3 := isPortArg_port_token v
  have hs := split_port_token v
  simp only [isVersionArg, isHelpArg, isPortArg, Bool.or_eq_false_iff, beq_eq_false_iff_ne,
    ne_eq] at h1 h2 h3
  generalize "--webui-port=".toList ++ v = tok at h1 h2 h3 hs
  simp only [parseArg, h1.1, h1.2, h2.1, h2.2, h3, or_self, if_false, if_true]
  by_cases hv : '=' ∈ v
  · simp [hv, hs.2 hv]
  · simp [hv, hs.1 hv]

/-! ## Lemmas about `toInt` -/

theorem mem_dropWhile_of_not {α : Type} (p : α → Bool) (c : α) (hc : p c = false) :
    ∀ s : List α, c ∈ s → c ∈ s.dropWhile p := by
  intro s
  induction s with
  | nil => intro h; exact h
  | cons x s ih =>
    intro h
    by_cases hx : p x = true
    · rw [List.dropWhile_cons_of_pos hx]
      rcases List.mem_cons.mp h with h1 | h1
      · rw [h1, hx] at hc; exact absurd hc (by simp)
      · exact ih h1
    · rw [List.dropWhile_cons_of_neg hx]; exact h

theorem mem_trimmed_of_not_space (c : Char) (hc : isSpace c = false) (s : QString)
    (h : c ∈ s) : c ∈ trimmed s := by
  unfold trimmed
  rw [List.mem_reverse]
  apply mem_dropWhile_of_not _ _ hc
  rw [List.mem_reverse]
  exact mem_dropWhile_of_not _ _ hc _ h

theorem digitsValue_none_of_mem (c : Char) (hc : isDigit c = false) :
    ∀ (s : QString) (acc : Nat), c ∈ s → digitsValue acc s = none := by
  intro s
  induction s with
  | nil => intro acc h; simp at h
  | cons x s ih =>
    intro acc h
    by_cases hx : isDigit x = true
    · rcases List.mem_cons.mp h with h1 | h1
      · rw [h1, hx] at hc; exact absurd hc (by simp)
      · simp only [digitsValue, hx, if_true]; exact ih _ h1
    · simp [digitsValue, hx]

theorem parseDigits_none_of_mem (c : Char) (hc : isDigit c = false) (s : QString)
    (h : c ∈ s) : parseDigits s = none := by
  cases s with
  | nil => rfl
  | cons x s => exact digitsValue_none_of_mem c hc _ _ h

/-- A string containing `=` is not an integer. -/
theorem parseInt_none_of_eq_mem (v : QString) (h : '=' ∈ v) : parseInt v = none := by
  have ht : '=' ∈ trimmed v := mem_trimmed_of_not_space _ (by decide) v h
  have hd : isDigit '=' = false := by decide
  unfold parseInt
  split
  · next ds heq =>
    rw [heq] at ht
    have : '=' ∈ ds := by
      rcases List.mem_cons.mp ht with h1 | h1
      · exact absurd h1 (by decide)
      · exact h1
    simp [parseDigits_none_of_mem _ hd _ this]
  · next ds heq =>
    rw [heq] at ht
    have : '=' ∈ ds := by
      rcases List.mem_cons.mp ht with h1 | h1
      · exact absurd h1 (by decide)
      · exact h1
    simp [parseDigits_none_of_mem _ hd _ this]
  · simp [parseDigits_none_of_mem _ hd _ ht]

theorem toInt_of_parseInt_none (v : QString) (h : parseInt v = none) : toInt v = 0 := by
  simp [toInt, h]

theorem toInt_of_parseInt_in_range (v : QString) (p : Int) (h : parseInt v = some p)
    (h1 : 1 ≤ p) (h2 : p ≤ 65535) : toInt v = p := by
  simp only [toInt, h]
  rw [if_pos]
  constructor <;> omega

theorem toInt_of_parseInt_out_of_range (v : QString) (p : Int) (h : parseInt v = some p)
    (h1 : p < 1 ∨ 65535 < p) : ¬ (0 < toInt v ∧ toInt v ≤ 65535) := by
  simp only [toInt, h]
  split_ifs <;> omega

theorem digitChar_spec : ∀ d : Fin 10,
    isDigit (Nat.digitChar d.val) = true ∧ (Nat.digitChar d.val).toNat - 48 = d.val ∧
      isSpace (Nat.digitChar d.val) = false ∧ Nat.digitChar d.val ≠ '-' ∧
      Nat.digitChar d.val ≠ '+' := by
  decide

theorem digitsValue_append (xs ys : QString) : ∀ acc : Nat,
    digitsValue acc (xs ++ ys) = (digitsValue acc xs).bind (fun a => digitsValue a ys) := by
  induction xs with
  | nil => intro acc; simp [digitsValue]
  | cons x xs ih =>
    intro acc
    by_cases hx : isDigit x = true
    · simp [digitsValue, hx, ih]
    · simp [digitsValue, hx]

/-- The digits `Nat.toDigitsCore` puts in front of `ds` read back as `n`. -/
theorem toDigitsCore_spec : ∀ (fuel n : Nat) (ds : List Char), n < fuel →
    ∃ pre : List Char, Nat.toDigitsCore 10 fuel n ds = pre ++ ds ∧
      (∃ d : Fin 10, ∃ tl, pre = Nat.digitChar d.val :: tl) ∧
      (∃ d : Fin 10, ∃ ini, pre = ini ++ [Nat.digitChar d.val]) ∧
      ∀ acc : Nat, digitsValue acc pre = some (acc * 10 ^ pre.length + n) := by
  intro fuel
  induction fuel with
  | zero => intro n ds h; omega
  | succ fuel ih =>
    intro n ds hn
    have hlt : n % 10 < 10 := Nat.mod_lt _ (by decide)
    have hd := digitChar_spec ⟨n % 10, hlt⟩
    simp only at hd
    by_cases h0 : n / 10 = 0
    · refine ⟨[Nat.digitChar (n % 10)], ?_, ⟨⟨n % 10, hlt⟩, [], rfl⟩, ⟨⟨n % 10, hlt⟩, [], rfl⟩, ?_⟩
      · simp [Nat.toDigitsCore, h0]
      · intro acc
        have hn10 : n % 10 = n := by omega
        rw [hn10] at hd
        simp only [digitsValue, hn10, hd.1, if_true, hd.2.1, List.length_singleton, pow_one]
    · have hlt2 : n / 10 < fuel := by omega
      obtain ⟨pre, hpre, ⟨d, tl, hhead⟩, _, hval⟩ := ih (n / 10) (Nat.digitChar (n % 10) :: ds) hlt2
      refine ⟨pre ++ [Nat.digitChar (n % 10)], ?_, ⟨d, tl ++ [Nat.digitChar (n % 10)], ?_⟩,
        ⟨⟨n % 10, hlt⟩, pre, rfl⟩, ?_⟩
      · simp [Nat.toDigitsCore, h0, hpre]
      · simp [hhead]
      · intro acc
        rw [digitsValue_append, hval]
        simp only [Option.some_bind, digitsValue, hd.1, if_true, hd.2.1, List.length_append,
          List.length_singleton, Option.some.injEq]
        rw [pow_succ]
        nlinarith [Nat.div_add_mod n 10]

theorem trimmed_eq_self_of_ends (c l : Char) (s : QString)
    (hc : isSpace c = false) (hl : isSpace l = false)
    (h1 : ∃ tl, s = c :: tl) (h2 : ∃ ini, s = ini ++ [l]) : trimmed s = s := by
  obtain ⟨tl, h1⟩ := h1
  obtain ⟨ini, h2⟩ := h2
  unfold trimmed
  have e1 : s.dropWhile isSpace = s := by
    rw [h1, List.dropWhile_cons_of_neg (by simp [hc])]
  rw [e1]
  have e2 : s.reverse = l :: ini.reverse := by rw [h2]; simp
  rw [e2, List.dropWhile_cons_of_neg (by simp [hl]), ← e2, List.reverse_reverse]

theorem parseInt_toDigits (n : Nat) : parseInt (Nat.toDigits 10 n) = some (n : Int) := by
  obtain ⟨pre, hpre, ⟨d, tl, hhead⟩, ⟨l, ini, hlast⟩, hval⟩ :=
    toDigitsCore_spec (n + 1) n [] (Nat.lt_succ_self n)
  have hd := digitChar_spec d
  have hl := digitChar_spec l
  have hs : Nat.toDigits 10 n = pre := by simp [Nat.toDigits, hpre]
  have ht : trimmed pre = pre :=
    trimmed_eq_self_of_ends _ _ pre hd.2.2.1 hl.2.2.1 ⟨tl, hhead⟩ ⟨ini, hlast⟩
  have hv0 := hval 0
  simp only [Nat.zero_mul, Nat.zero_add] at hv0
  have hp : parseDigits pre = some n := by
    rw [hhead] at hv0 ⊢
    exact hv0
  rw [hs]
  unfold parseInt
  rw [ht]
  subst hhead
  split
  · next ds heq => exact absurd (List.cons.inj heq).1 hd.2.2.2.1
  · next ds heq => exact absurd (List.cons.inj heq).1 hd.2.2.2.2
  · simp [hp]

theorem parseInt_neg_toDigits (n : Nat) :
    parseInt ('-' :: Nat.toDigits 10 n) = some (- (n : Int)) := by
  obtain ⟨pre, hpre, ⟨d, tl, hhead⟩, ⟨l, ini, hlast⟩, hval⟩ :=
    toDigitsCore_spec (n + 1) n [] (Nat.lt_succ_self n)
  have hl := digitChar_spec l
  have hs : Nat.toDigits 10 n = pre := by simp [Nat.toDigits, hpre]
  have ht : trimmed ('-' :: pre) = '-' :: pre :=
    trimmed_eq_self_of_ends '-' _ _ (by decide) hl.2.2.1 ⟨pre, rfl⟩
      ⟨'-' :: ini, by rw [hlast]; rfl⟩
  have hv0 := hval 0
  simp only [Nat.zero_mul, Nat.zero_add] at hv0
  have hp : parseDigits pre = some n := by
    rw [hhead] at hv0 ⊢
    exact hv0
  rw [hs]
  unfold parseInt
  rw [ht]
  simp [hp]

/-- The decimal text of an integer is read back as that integer. -/
theorem parseInt_decimalText (p : Int) : parseInt (decimalText p) = some p := by
  cases p with
  | ofNat n => exact parseInt_toDigits n
  | negSucc n =>
    have h := parseInt_neg_toDigits (n + 1)
    have e : decimalText (Int.negSucc n) = '-' :: Nat.toDigits 10 (n + 1) := rfl
    rw [e, h]
    rfl

/-! ## Lemmas about `main` -/

theorem parse_single_port (gui : Bool) (fs : FileSystem) (prog : QString)
    (pre post : QStringList) (v : QString)
    (h : ∀ a ∈ pre ++ post, isPortArg a = false ∧ isVersionArg a = false ∧ isHelpArg a = false) :
    (parseCommandLine gui fs (prog :: (pre ++ ("--webui-port=".toList ++ v) :: post))).showVersion
        = false ∧
    (parseCommandLine gui fs (prog :: (pre ++ ("--webui-port=".toList ++ v) :: post))).showHelp
        = false ∧
    (parseCommandLine gui fs (prog :: (pre ++ ("--webui-port=".toList ++ v) :: post))).webUiPort
        = if '=' ∈ v then 0 else toInt v := by
  have hpre : ∀ a ∈ pre, isPortArg a = false ∧ isVersionArg a = false ∧ isHelpArg a = false :=
    fun a ha => h a (List.mem_append_left _ ha)
  have hpost : ∀ a ∈ post, isPortArg a = false ∧ isVersionArg a = false ∧ isHelpArg a = false :=
    fun a ha => h a (List.mem_append_right _ ha)
  refine ⟨?_, ?_, ?_⟩
  · rw [parse_showVersion, List.any_append, List.any_cons, isVersionArg_port_token,
      any_eq_false_of_forall _ _ (fun a ha => (hpre a ha).2.1),
      any_eq_false_of_forall _ _ (fun a ha => (hpost a ha).2.1)]
    rfl
  · rw [parse_showHelp, List.any_append, List.any_cons, isHelpArg_port_token,
      any_eq_false_of_forall _ _ (fun a ha => (hpre a ha).2.2),
      any_eq_false_of_forall _ _ (fun a ha => (hpost a ha).2.2)]
    rfl
  · simp only [parseCommandLine, List.drop_succ_cons, List.drop_zero, List.foldl_append,
      List.foldl_cons]
    rw [foldl_webUiPort_of_no_port _ _ _ _ (fun a ha => (hpost a ha).1), parseArg_port_token]
    have h0 : (List.foldl (parseArg gui fs) QbtCommandLineParameters.zero pre).webUiPort = 0 := by
      rw [foldl_webUiPort_of_no_port _ _ _ _ (fun a ha => (hpre a ha).1)]; rfl
    split_ifs <;> simp [h0]

theorem main_of_bad_port (w : World) (pref : Preferences) (argv apps : QStringList)
    (hv : (parseCommandLine w.gui w.fs apps).showVersion = false)
    (hh : (parseCommandLine w.gui w.fs apps).showHelp = false)
    (hp : ¬ (0 < (parseCommandLine w.gui w.fs apps).webUiPort ∧
      (parseCommandLine w.gui w.fs apps).webUiPort ≤ 65535)) :
    main w pref argv apps =
      { exitCode := EXIT_FAILURE, pref := pref,
        effects := [Effect.displayBadArgMessage BadArg.badPort],
        signals := SigTable.default } := by
  simp only [main, hv, hh]
  simp [hp]

theorem gate_cases (w : World) (pref : Preferences) :
    userAgreesWithLegalNotice w pref = { agreed := true, pref := pref, effects := [] } ∨
    userAgreesWithLegalNotice w pref =
      { agreed := true, pref := { pref with acceptedLegal := true },
        effects := [Effect.legalNoticePrompt, Effect.setAcceptedLegal] } ∨
    userAgreesWithLegalNotice w pref =
      { agreed := false, pref := pref, effects := [Effect.legalNoticePrompt] } := by
  unfold userAgreesWithLegalNotice
  split_ifs <;> simp

theorem gate_spec (w : World) (pref : Preferences) :
    (userAgreesWithLegalNotice w pref).pref.webUiPort = pref.webUiPort ∧
    ∀ e ∈ (userAgreesWithLegalNotice w pref).effects,
      e = Effect.legalNoticePrompt ∨ e = Effect.setAcceptedLegal := by
  rcases gate_cases w pref with h | h | h <;> rw [h] <;> simp

theorem runAsOwner_spec (w : World) (params : QbtCommandLineParameters) (pref : Preferences)
    (done : List Effect) :
    (runAsOwner w params pref done).pref = pref ∧
    ∃ tail, (runAsOwner w params pref done).effects = done ++ tail ∧
      ∀ e ∈ tail, e.ownerOnly = true := by
  unfold runAsOwner
  constructor
  · split_ifs <;> rfl
  · split_ifs <;> simp only [List.append_assoc] <;> refine ⟨_, rfl, ?_⟩ <;>
      simp [Effect.ownerOnly]

/-- What the owner replays to the receiver is what the collector got from the application
of line 134; the messages of the application re-created on the daemon path are not part
of it. -/
theorem runAsOwner_replay (w : World) (params : QbtCommandLineParameters) (pref : Preferences)
    (done : List Effect) (h : ∀ m, Effect.processParams m ∉ done) (m : QStringList)
    (hm : Effect.processParams m ∈ (runAsOwner w params pref done).effects) :
    m = (w.startupMessages.foldl MessagesCollector.collectMessage { messages := [] }).messages := by
  have hd := h m
  unfold runAsOwner at hm
  simp only [collectFrom, if_true, Bool.false_eq_true, if_false] at hm
  split_ifs at hm <;>
    simp only [List.mem_append, List.mem_cons, List.mem_singleton, List.not_mem_nil,
      Effect.processParams.injEq, reduceCtorEq, or_false, false_or, hd] at hm <;>
    exact hm

/-- On the path where the port check passes, `main` first writes the port; everything after
that is a late effect, and the stored port is the parsed one. -/
theorem main_of_valid_port (w : World) (pref : Preferences) (argv apps : QStringList)
    (hv : (parseCommandLine w.gui w.fs apps).showVersion = false)
    (hh : (parseCommandLine w.gui w.fs apps).showHelp = false)
    (hp : 0 < (parseCommandLine w.gui w.fs apps).webUiPort ∧
      (parseCommandLine w.gui w.fs apps).webUiPort ≤ 65535) :
    (main w pref argv apps).pref.webUiPort = (parseCommandLine w.gui w.fs apps).webUiPort ∧
    ∃ rest, (main w pref argv apps).effects =
        Effect.setWebUiPort (parseCommandLine w.gui w.fs apps).webUiPort :: rest ∧
      ∀ e ∈ rest, e.afterValidation = true := by
  unfold main
  generalize parseCommandLine w.gui w.fs apps = params at hv hh hp
  simp only [hv, hh, hp, and_self, if_true, Bool.false_eq_true, if_false]
  obtain ⟨hg1, hg2⟩ := gate_spec w { pref with webUiPort := params.webUiPort }
  generalize userAgreesWithLegalNotice w { pref with webUiPort := params.webUiPort } = gate
    at hg1 hg2
  have hg3 : ∀ e ∈ gate.effects, e.afterValidation = true := by
    intro e he
    rcases hg2 e he with h | h <;> rw [h] <;> rfl
  have he1 : ∀ e ∈ (if w.qputenvOk = true then [] else [Effect.envWarning]),
      e.afterValidation = true := by
    intro e he
    split_ifs at he
    · simp at he
    · simp only [List.mem_singleton] at he; rw [he]; rfl
  generalize (if w.qputenvOk = true then [] else [Effect.envWarning]) = envEff at he1
  obtain ⟨ho1, tail, ho2, ho3⟩ := runAsOwner_spec w params gate.pref
    (Effect.setWebUiPort params.webUiPort :: envEff ++ gate.effects ++ [Effect.isRunningQuery])
  have ho4 : ∀ e ∈ tail, e.afterValidation = true := by
    intro e he
    have := ho3 e he
    cases e <;> simp_all [Effect.ownerOnly, Effect.afterValidation]
  simp only at hg1
  split_ifs
  · exact ⟨hg1, _, rfl, fun e he => by
      rcases List.mem_append.mp he with h | h
      · exact he1 e h
      · exact hg3 e h⟩
  · refine ⟨hg1, _, rfl, fun e he => ?_⟩
    simp only [List.append_eq, List.mem_append, List.mem_cons, List.mem_singleton,
      List.not_mem_nil, or_false] at he
    rcases he with (h | h) | h | h
    · exact he1 e h
    · exact hg3 e h
    · rw [h]; rfl
    · rw [h]; rfl
  · refine ⟨hg1, _, rfl, fun e he => ?_⟩
    simp only [List.append_eq, List.mem_append, List.mem_cons, List.mem_singleton,
      List.not_mem_nil, or_false] at he
    rcases he with (h | h) | h | h | h
    · exact he1 e h
    · exact hg3 e h
    · rw [h]; rfl
    · rw [h]; rfl
    · rw [h]; rfl
  · refine ⟨hg1, _, rfl, fun e he => ?_⟩
    simp only [List.append_eq, List.mem_append, List.mem_cons, List.mem_singleton,
      List.not_mem_nil, or_false] at he
    rcases he with (h | h) | h | h | h
    · exact he1 e h
    · exact hg3 e h
    · rw [h]; rfl
    · rw [h]; rfl
    · rw [h]; rfl
  · refine ⟨by rw [ho1]; exact hg1, envEff ++ gate.effects ++ [Effect.isRunningQuery] ++ tail,
      by rw [ho2]; simp, fun e he => ?_⟩
    simp only [List.append_eq, List.mem_append, List.mem_cons, List.mem_singleton,
      List.not_mem_nil, or_false] at he
    rcases he with ((h | h) | h) | h
    · exact he1 e h
    · exact hg3 e h
    · rw [h]; rfl
    · exact ho4 e h

/-! ## C2: validation of `--webui-port=` -/

/-- C2: for every argument list with exactly one `--webui-port=v` token and no version or
help token: if `v` denotes an integer `p` with `1 ≤ p ≤ 65535`, `parseCommandLine` yields
`webUiPort = p`, and `main` passes the port check, its first effect being the write of `p`
to the preferences, where `p` is still stored on return; if `v` denotes an integer outside
`[1, 65535]` (zero, negative, above 65535, beyond the range of `int`) or is not an integer,
`main` prints the bad-command-line message and returns `EXIT_FAILURE`. The decimal text of
every integer denotes that integer. -/
theorem webui_port_validation (w : World) (pref : Preferences) (argv : QStringList)
    (prog : QString) (pre post : QStringList) (v : QString)
    (h : ∀ a ∈ pre ++ post,
      isPortArg a = false ∧ isVersionArg a = false ∧ isHelpArg a = false) :
    (∀ p : Int, parseInt v = some p → 1 ≤ p → p ≤ 65535 →
      (parseCommandLine w.gui w.fs
        (prog :: (pre ++ ("--webui-port=".toList ++ v) :: post))).webUiPort = p ∧
      (main w pref argv (prog :: (pre ++ ("--webui-port=".toList ++ v) :: post))).effects.head? =
        some (Effect.setWebUiPort p) ∧
      (main w pref argv (prog :: (pre ++ ("--webui-port=".toList ++ v) :: post))).pref.webUiPort
        = p ∧
      Effect.displayBadArgMessage BadArg.badPort ∉
        (main w pref argv (prog :: (pre ++ ("--webui-port=".toList ++ v) :: post))).effects) ∧
    (∀ p : Int, parseInt v = some p → (p < 1 ∨ 65535 < p) →
      main w pref argv (prog :: (pre ++ ("--webui-port=".toList ++ v) :: post)) =
        { exitCode := EXIT_FAILURE, pref := pref,
          effects := [Effect.displayBadArgMessage BadArg.badPort],
          signals := SigTable.default }) ∧
    (parseInt v = none →
      main w pref argv (prog :: (pre ++ ("--webui-port=".toList ++ v) :: post)) =
        { exitCode := EXIT_FAILURE, pref := pref,
          effects := [Effect.displayBadArgMessage BadArg.badPort],
          signals := SigTable.default }) ∧
    (∀ p : Int, parseInt (decimalText p) = some p) := by
  obtain ⟨hv, hh, hp⟩ := parse_single_port w.gui w.fs prog pre post v h
  refine ⟨?_, ?_, ?_, parseInt_decimalText⟩
  · intro p hpv h1 h2
    have hne : '=' ∉ v := fun hmem => by
      rw [parseInt_none_of_eq_mem v hmem] at hpv; exact absurd hpv (by simp)
    have hport : (parseCommandLine w.gui w.fs
        (prog :: (pre ++ ("--webui-port=".toList ++ v) :: post))).webUiPort = p := by
      rw [hp, if_neg hne]; exact toInt_of_parseInt_in_range v p hpv h1 h2
    obtain ⟨hm1, rest, hm2, hm3⟩ := main_of_valid_port w pref argv _ hv hh
      (by rw [hport]; constructor <;> omega)
    rw [hport] at hm1 hm2
    refine ⟨hport, by rw [hm2]; rfl, hm1, ?_⟩
    rw [hm2]
    intro hmem
    rcases List.mem_cons.mp hmem with h3 | h3
    · exact absurd h3 (by simp)
    · have := hm3 _ h3
      simp [Effect.afterValidation] at this
  · intro p hpv hr
    apply main_of_bad_port w pref argv _ hv hh
    rw [hp]
    split_ifs
    · omega
    · exact toInt_of_parseInt_out_of_range v p hpv hr
  · intro hpv
    apply main_of_bad_port w pref argv _ hv hh
    rw [hp, toInt_of_parseInt_none v hpv]
    split_ifs <;> omega

/-- C2, at the specification's example `--webui-port=9000 /tmp/a.torrent` and at
`--webui-port=0`, `--webui-port=65536`, `--webui-port=-1`, `--webui-port=99999999999`
and `--webui-port=http`. -/
theorem webui_port_validation_witness :
    (∀ a ∈ ([] : QStringList) ++ ["/tmp/a.torrent".toList],
      isPortArg a = false ∧ isVersionArg a = false ∧ isHelpArg a = false) ∧
    (parseCommandLine sampleWorld.gui sampleWorld.fs
      ["qbittorrent".toList, "--webui-port=9000".toList, "/tmp/a.torrent".toList]).webUiPort
        = 9000 ∧
    (main sampleWorld samplePref
      ["qbittorrent".toList, "--webui-port=9000".toList, "/tmp/a.torrent".toList]
      ["qbittorrent".toList, "--webui-port=9000".toList, "/tmp/a.torrent".toList]).pref.webUiPort
        = 9000 ∧
    (main sampleWorld samplePref ["qbittorrent".toList, "--webui-port=0".toList] ["qbittorrent".toList, "--webui-port=0".toList]).exitCode
      = EXIT_FAILURE ∧
    (main sampleWorld samplePref ["qbittorrent".toList, "--webui-port=65536".toList] ["qbittorrent".toList, "--webui-port=65536".toList]).exitCode
      = EXIT_FAILURE ∧
    (main sampleWorld samplePref ["qbittorrent".toList, "--webui-port=-1".toList] ["qbittorrent".toList, "--webui-port=-1".toList]).exitCode
      = EXIT_FAILURE ∧
    (main sampleWorld samplePref
      ["qbittorrent".toList, "--webui-port=99999999999".toList]
      ["qbittorrent".toList, "--webui-port=99999999999".toList]).exitCode = EXIT_FAILURE ∧
    (main sampleWorld samplePref ["qbittorrent".toList, "--webui-port=http".toList] ["qbittorrent".toList, "--webui-port=http".toList]).exitCode
      = EXIT_FAILURE := by
  have hnil : ∀ a ∈ ([] : QStringList) ++ [],
      isPortArg a = false ∧ isVersionArg a = false ∧ isHelpArg a = false := by decide
  have h9000 := (webui_port_validation sampleWorld samplePref
    ["qbittorrent".toList, "--webui-port=9000".toList, "/tmp/a.torrent".toList]
    "qbittorrent".toList [] ["/tmp/a.torrent".toList] "9000".toList (by decide)).1 9000 (by decide) (by decide)
    (by decide)
  have h0 := (webui_port_validation sampleWorld samplePref
    ["qbittorrent".toList, "--webui-port=0".toList] "qbittorrent".toList [] []
    "0".toList hnil).2.1 0 (by decide) (by decide)
  have h65536 := (webui_port_validation sampleWorld samplePref
    ["qbittorrent".toList, "--webui-port=65536".toList] "qbittorrent".toList [] []
    "65536".toList hnil).2.1 65536 (by decide) (by decide)
  have hneg := (webui_port_validation sampleWorld samplePref
    ["qbittorrent".toList, "--webui-port=-1".toList] "qbittorrent".toList [] []
    "-1".toList hnil).2.1 (-1) (by decide) (by decide)
  have hbig := (webui_port_validation sampleWorld samplePref
    ["qbittorrent".toList, "--webui-port=99999999999".toList] "qbittorrent".toList [] []
    "99999999999".toList hnil).2.1 99999999999 (by decide) (by decide)
  have hhttp := (webui_port_validation sampleWorld samplePref
    ["qbittorrent".toList, "--webui-port=http".toList] "qbittorrent".toList [] []
    "http".toList hnil).2.2.1 (by decide)
  exact ⟨by decide, h9000.1, h9000.2.2.1, congrArg Outcome.exitCode h0,
    congrArg Outcome.exitCode h65536, congrArg Outcome.exitCode hneg,
    congrArg Outcome.exitCode hbig, congrArg Outcome.exitCode hhttp⟩

/-! ## C3: `-v` / `-h` must stand alone -/

theorem isHelpArg_of_isVersionArg (a : QString) (h : isVersionArg a = true) :
    isHelpArg a = false := by
  simp only [isVersionArg, Bool.or_eq_true, beq_iff_eq] at h
  rcases h with h | h <;> subst h <;> decide

theorem isVersionArg_of_isHelpArg (a : QString) (h : isHelpArg a = true) :
    isVersionArg a = false := by
  simp only [isHelpArg, Bool.or_eq_true, beq_iff_eq] at h
  rcases h with h | h <;> subst h <;> decide

theorem isRecognizedFlag_of_version_or_help (gui : Bool) (a : QString)
    (h : isVersionArg a = true ∨ isHelpArg a = true) : isRecognizedFlag gui a = true := by
  unfold isRecognizedFlag
  rcases h with h | h <;> simp [h]

/-- C3 (the claim as stated fails): in a GUI build the `QApplication` constructor removes
the options Qt consumes before the parser runs. For the raw line
`-style -v --webui-port=9000`, which contains `-v` together with two other tokens, Qt takes
`-v` as the value of `-style`, the parser never sees it and `main` does not return
`EXIT_FAILURE`. For the raw line `-reverse -v`, the list `qApp->arguments()` consists of
exactly the token `-v`, yet `main` does not return `EXIT_SUCCESS`, since `argc` is 3. So the
claim fails whether its argument list is the raw one or the parsed one. -/
theorem version_flag_with_qt_options :
    ((∃ a ∈ ["-style".toList, "-v".toList, "--webui-port=9000".toList],
        isVersionArg a = true) ∧
      2 ≤ ["-style".toList, "-v".toList, "--webui-port=9000".toList].length ∧
      qtArguments
          ["qbittorrent".toList, "-style".toList, "-v".toList, "--webui-port=9000".toList] =
        ["qbittorrent".toList, "--webui-port=9000".toList] ∧
      (main sampleGuiWorld acceptedPref
          ["qbittorrent".toList, "-style".toList, "-v".toList, "--webui-port=9000".toList]
          (qtArguments
            ["qbittorrent".toList, "-style".toList, "-v".toList,
              "--webui-port=9000".toList])).exitCode ≠ EXIT_FAILURE) ∧
    (qtArguments ["qbittorrent".toList, "-reverse".toList, "-v".toList] =
        ["qbittorrent".toList, "-v".toList] ∧
      (main sampleGuiWorld acceptedPref
          ["qbittorrent".toList, "-reverse".toList, "-v".toList]
          (qtArguments ["qbittorrent".toList, "-reverse".toList, "-v".toList])).exitCode
        ≠ EXIT_SUCCESS) := by
  decide

/-- C3 (amended): when `qApp->arguments()` is the program name followed by the single token
`-v` or `--version`, `parseCommandLine` sets `showVersion` and leaves the targets empty,
and if the raw command line had one token too (`argc == 2`), `main` displays the version
and returns `EXIT_SUCCESS`; likewise `-h` or `--help` sets `showHelp`, and `main` displays
the usage and returns `EXIT_SUCCESS`. When a `-v`, `--version`, `-h` or `--help` token is
among `qApp->arguments()` and the raw command line did not consist of exactly one token
(`argc != 2`), `main` prints that the flag must be the single parameter and returns
`EXIT_FAILURE`. -/
theorem version_help_short_circuit (w : World) (pref : Preferences) (prog : QString) :
    (∀ a : QString, isVersionArg a = true →
      (parseCommandLine w.gui w.fs [prog, a]).showVersion = true ∧
      (parseCommandLine w.gui w.fs [prog, a]).torrents = [] ∧
      ∀ argv : QStringList, argv.length = 2 →
        main w pref argv [prog, a] =
          { exitCode := EXIT_SUCCESS, pref := pref, effects := [Effect.displayVersion],
            signals := SigTable.default }) ∧
    (∀ a : QString, isHelpArg a = true →
      (parseCommandLine w.gui w.fs [prog, a]).showHelp = true ∧
      (parseCommandLine w.gui w.fs [prog, a]).torrents = [] ∧
      ∀ argv : QStringList, argv.length = 2 →
        main w pref argv [prog, a] =
          { exitCode := EXIT_SUCCESS, pref := pref, effects := [Effect.displayUsage],
            signals := SigTable.default }) ∧
    (∀ argv args : QStringList,
      (∃ a ∈ args, isVersionArg a = true ∨ isHelpArg a = true) →
      argv.length ≠ 2 →
      (main w pref argv (prog :: args)).exitCode = EXIT_FAILURE ∧
      (main w pref argv (prog :: args)).pref = pref ∧
      ((main w pref argv (prog :: args)).effects =
          [Effect.displayBadArgMessage BadArg.versionNotSingle] ∨
        (main w pref argv (prog :: args)).effects =
          [Effect.displayBadArgMessage BadArg.helpNotSingle])) := by
  refine ⟨?_, ?_, ?_⟩
  · intro a ha
    have hv : (parseCommandLine w.gui w.fs [prog, a]).showVersion = true := by
      rw [parse_showVersion]; simp [ha]
    have ht : (parseCommandLine w.gui w.fs [prog, a]).torrents = [] := by
      rw [parse_torrents]
      simp [expectedTargets, isRecognizedFlag_of_version_or_help w.gui a (Or.inl ha)]
    refine ⟨hv, ht, ?_⟩
    intro argv hlen
    simp only [main, hv, hlen]
    simp
  · intro a ha
    have hv : (parseCommandLine w.gui w.fs [prog, a]).showVersion = false := by
      rw [parse_showVersion]; simp [isVersionArg_of_isHelpArg a ha]
    have hh : (parseCommandLine w.gui w.fs [prog, a]).showHelp = true := by
      rw [parse_showHelp]; simp [ha]
    have ht : (parseCommandLine w.gui w.fs [prog, a]).torrents = [] := by
      rw [parse_torrents]
      simp [expectedTargets, isRecognizedFlag_of_version_or_help w.gui a (Or.inr ha)]
    refine ⟨hh, ht, ?_⟩
    intro argv hlen
    simp only [main, hv, hh, hlen]
    simp
  · intro argv args hex hlen
    have hlen2 : (argv.length == 2) = false := by
      simp only [beq_eq_false_iff_ne, ne_eq]; exact hlen
    cases hv : (parseCommandLine w.gui w.fs (prog :: args)).showVersion with
    | true =>
      simp only [main, hv, hlen2]
      simp
    | false =>
      have hh : (parseCommandLine w.gui w.fs (prog :: args)).showHelp = true := by
        rw [parse_showVersion] at hv
        rw [parse_showHelp]
        obtain ⟨a, hmem, ha⟩ := hex
        rcases ha with ha | ha
        · have : args.any isVersionArg = true := List.any_eq_true.mpr ⟨a, hmem, ha⟩
          rw [this] at hv; exact absurd hv (by simp)
        · exact List.any_eq_true.mpr ⟨a, hmem, ha⟩
      simp only [main, hv, hh, hlen2]
      simp

/-- C3 (amended), at `-v` alone, `--help` alone, `-v` followed by a torrent file, and the
raw line `-reverse -v` of a GUI build, of which Qt leaves `-v`. -/
theorem version_help_short_circuit_witness :
    (isVersionArg "-v".toList = true ∧
      ["qbittorrent".toList, "-v".toList].length = 2 ∧
      main sampleWorld samplePref ["qbittorrent".toList, "-v".toList]
          ["qbittorrent".toList, "-v".toList] =
        { exitCode := EXIT_SUCCESS, pref := samplePref, effects := [Effect.displayVersion],
          signals := SigTable.default }) ∧
    (isHelpArg "--help".toList = true ∧
      main sampleWorld samplePref ["qbittorrent".toList, "--help".toList]
          ["qbittorrent".toList, "--help".toList] =
        { exitCode := EXIT_SUCCESS, pref := samplePref, effects := [Effect.displayUsage],
          signals := SigTable.default }) ∧
    ((∃ a ∈ ["-v".toList, "/tmp/a.torrent".toList],
        isVersionArg a = true ∨ isHelpArg a = true) ∧
      ["qbittorrent".toList, "-v".toList, "/tmp/a.torrent".toList].length ≠ 2 ∧
      (main sampleWorld samplePref
        ["qbittorrent".toList, "-v".toList, "/tmp/a.torrent".toList]
        ("qbittorrent".toList :: ["-v".toList, "/tmp/a.torrent".toList])).exitCode
          = EXIT_FAILURE) ∧
    (main sampleGuiWorld samplePref ["qbittorrent".toList, "-reverse".toList, "-v".toList]
        ("qbittorrent".toList :: ["-v".toList])).exitCode = EXIT_FAILURE :=
  ⟨⟨by decide, by decide,
      ((version_help_short_circuit sampleWorld samplePref "qbittorrent".toList).1
        "-v".toList (by decide)).2.2 ["qbittorrent".toList, "-v".toList] (by decide)⟩,
    ⟨by decide,
      ((version_help_short_circuit sampleWorld samplePref "qbittorrent".toList).2.1
        "--help".toList (by decide)).2.2 ["qbittorrent".toList, "--help".toList] (by decide)⟩,
    ⟨⟨"-v".toList, by decide, Or.inl (by decide)⟩, by decide,
      ((version_help_short_circuit sampleWorld samplePref "qbittorrent".toList).2.2
        ["qbittorrent".toList, "-v".toList, "/tmp/a.torrent".toList]
        ["-v".toList, "/tmp/a.torrent".toList]
        ⟨"-v".toList, by decide, Or.inl (by decide)⟩ (by decide)).1⟩,
    ((version_help_short_circuit sampleGuiWorld samplePref "qbittorrent".toList).2.2
      ["qbittorrent".toList, "-reverse".toList, "-v".toList] ["-v".toList]
      ⟨"-v".toList, by decide, Or.inl (by decide)⟩ (by decide)).1⟩

/-! ## C5: targets of the parser -/

/-- C5: `parseCommandLine` is a total function, and for every argument list and every
file-system oracle its targets are exactly the tokens that are not recognized flags, in
argument order, each replaced by its absolute path when it names an existing file and
kept verbatim otherwise. In particular `--foo` and a magnet URI become targets, in both
builds, and so does `-d` in a GUI build. -/
theorem parseCommandLine_targets (gui : Bool) (fs : FileSystem) (prog : QString)
    (args : QStringList) :
    (parseCommandLine gui fs (prog :: args)).torrents =
        (args.filter (fun a => !isRecognizedFlag gui a)).map (resolveTarget fs) ∧
    (parseCommandLine gui fs [prog, "--foo".toList, "magnet:?xt=...".toList]).torrents =
        [resolveTarget fs "--foo".toList, resolveTarget fs "magnet:?xt=...".toList] ∧
    (parseCommandLine true fs [prog, "-d".toList]).torrents = [resolveTarget fs "-d".toList] := by
  refine ⟨parse_torrents gui fs prog args, ?_, ?_⟩
  · rw [parse_torrents]
    cases gui <;> rfl
  · rw [parse_torrents]
    rfl

/-! ## C4: relay round trip -/

theorem split_join_of_clean (sep : Char) (targets : QStringList)
    (h1 : ∀ t ∈ targets, t ≠ []) (h2 : ∀ t ∈ targets, sep ∉ t) :
    split sep SplitBehavior.SkipEmptyParts (join [sep] targets) = targets := by
  unfold split
  induction targets with
  | nil => simp [join, splitFrom]
  | cons t rest ih =>
    have ht1 : t ≠ [] := h1 t (List.mem_cons_self _ _)
    have ht2 : sep ∉ t := h2 t (List.mem_cons_self _ _)
    cases rest with
    | nil =>
      simp only [join]
      rw [splitFrom_of_not_mem _ _ _ _ ht2]
      simp [ht1]
    | cons u rest =>
      have ih1 := ih (fun x hx => h1 x (List.mem_cons_of_mem _ hx))
        (fun x hx => h2 x (List.mem_cons_of_mem _ hx))
      simp only [join, List.append_assoc, List.singleton_append]
      rw [splitFrom_append_of_not_mem _ _ _ ht2]
      simp only [List.nil_append, splitFrom, if_true, ne_eq, ht1, not_false_eq_true, true_or]
      rw [ih1]

/-- C4 (the claim as stated fails): with the targets `a`, the empty string and `b`, none of
which contains `|`, and an empty buffer, the client's message is `a||b` and the owner's
buffer ends as `a`, `b`: the empty target is lost, so the constraint on `|` is not the only
one. -/
theorem relay_round_trip_loses_empty_target :
    ¬ (∀ (targets B : QStringList), targets ≠ [] → (∀ t ∈ targets, '|' ∉ t) →
        (MessagesCollector.collectMessage { messages := B }
          (join "|".toList targets)).messages = B ++ targets) := by
  intro h
  have h1 := h ["a".toList, [], "b".toList] [] (by decide) (by decide)
  revert h1
  decide

/-- C4 (amended): for every non-empty sequence of targets in which no target is empty and
no target contains `|`, and for every prior content `B` of the owner's buffer, joining the
targets with `|` and collecting the message leaves the buffer equal to `B` followed by
exactly the original targets in their original order. -/
theorem relay_round_trip (targets B : QStringList) (_hne : targets ≠ [])
    (h1 : ∀ t ∈ targets, t ≠ []) (h2 : ∀ t ∈ targets, '|' ∉ t) :
    (MessagesCollector.collectMessage { messages := B } (join "|".toList targets)).messages
      = B ++ targets := by
  have h := split_join_of_clean '|' targets h1 h2
  simp only [MessagesCollector.collectMessage]
  have e : "|".toList = ['|'] := rfl
  rw [e, h]

/-- C4 (amended), at the targets `a`, `b c`, `d` of the specification's example and a
buffer already holding `x`. -/
theorem relay_round_trip_witness :
    ["a".toList, "b c".toList, "d".toList] ≠ [] ∧
    (∀ t ∈ ["a".toList, "b c".toList, "d".toList], t ≠ []) ∧
    (∀ t ∈ ["a".toList, "b c".toList, "d".toList], '|' ∉ t) ∧
    (MessagesCollector.collectMessage { messages := ["x".toList] }
      (join "|".toList ["a".toList, "b c".toList, "d".toList])).messages
        = ["x".toList] ++ ["a".toList, "b c".toList, "d".toList] :=
  ⟨by decide, by decide, by decide,
    relay_round_trip ["a".toList, "b c".toList, "d".toList] ["x".toList] (by decide)
      (by decide) (by decide)⟩

/-! ## C7: decoding of "no targets" -/

/-- C7 (the claim as stated fails): collecting the sentinel `qbt://show` into an empty
buffer does not leave the buffer empty. -/
theorem collect_sentinel_not_empty :
    ¬ ((MessagesCollector.collectMessage { messages := [] } "qbt://show".toList).messages
        = []) := by
  decide

/-- C7 (amended): collecting the empty message adds nothing to the buffer; collecting the
sentinel `qbt://show` appends the single entry `qbt://show`, which is then part of what is
replayed to the receiver. -/
theorem collect_no_targets (c : MessagesCollector) :
    c.collectMessage [] = c ∧
    (c.collectMessage "qbt://show".toList).messages = c.messages ++ ["qbt://show".toList] := by
  constructor
  · simp [MessagesCollector.collectMessage, split, splitFrom]
  · have h : split '|' SplitBehavior.SkipEmptyParts "qbt://show".toList
        = ["qbt://show".toList] := by decide
    simp only [MessagesCollector.collectMessage, h]

/-! ## C6: relay and exit -/

/-- C6: for every launch that passes argument validation (no version or help flag, port in
`[1, 65535]`), passes the consent gate (the notice was accepted before, or the answer is
affirmative), does not request daemon mode, and for which `isRunning()` is true, `main`
returns `EXIT_SUCCESS`, sends exactly one message, which is the targets joined with `|` in
order when there are targets and the sentinel `qbt://show` when there are none, and neither
installs a signal handler nor constructs the receiver nor enters the event loop. -/
theorem relay_and_exit (w : World) (pref : Preferences) (argv apps : QStringList)
    (hv : (parseCommandLine w.gui w.fs apps).showVersion = false)
    (hh : (parseCommandLine w.gui w.fs apps).showHelp = false)
    (hp : 0 < (parseCommandLine w.gui w.fs apps).webUiPort ∧
      (parseCommandLine w.gui w.fs apps).webUiPort ≤ 65535)
    (hg : pref.acceptedLegal = true ∨ affirmative w = true)
    (hd : (parseCommandLine w.gui w.fs apps).shouldDaemonize = false)
    (hr : w.isRunning = true) :
    (main w pref argv apps).exitCode = EXIT_SUCCESS ∧
    (main w pref argv apps).effects.filter Effect.isSendMessage =
      [Effect.sendMessage
        (if (parseCommandLine w.gui w.fs apps).torrents = [] then "qbt://show".toList
         else join "|".toList (parseCommandLine w.gui w.fs apps).torrents)] ∧
    (main w pref argv apps).signals = SigTable.default ∧
    ∀ e ∈ (main w pref argv apps).effects,
      (∀ s h, e ≠ Effect.signalInstalled s h) ∧ (∀ t, e ≠ Effect.receiverConstructed t) ∧
        (∀ m, e ≠ Effect.processParams m) ∧ e ≠ Effect.exec := by
  unfold main
  generalize parseCommandLine w.gui w.fs apps = params at hv hh hp hd
  simp only [hv, hh, hp, hd, hr, and_self, if_true, Bool.false_eq_true, if_false,
    Bool.and_false]
  have hgate : userAgreesWithLegalNotice w { pref with webUiPort := params.webUiPort } =
        { agreed := true, pref := { pref with webUiPort := params.webUiPort }, effects := [] } ∨
      userAgreesWithLegalNotice w { pref with webUiPort := params.webUiPort } =
        { agreed := true,
          pref := { pref with webUiPort := params.webUiPort, acceptedLegal := true },
          effects := [Effect.legalNoticePrompt, Effect.setAcceptedLegal] } := by
    unfold userAgreesWithLegalNotice
    rcases hg with hg | hg
    · left; simp [hg]
    · by_cases ha : pref.acceptedLegal = true
      · left; simp [ha]
      · right; simp [ha, hg]
  cases hq : w.qputenvOk <;> cases ht : params.torrents <;>
    rcases hgate with hgate | hgate <;> rw [hgate] <;>
    simp [Effect.isSendMessage]

/-- C6, at `--webui-port=9000 magnet:?xt=...` and at `--webui-port=9000` alone, with the
legal notice already accepted and another instance running. -/
theorem relay_and_exit_witness :
    (main sampleWorld acceptedPref
      ["qbittorrent".toList, "--webui-port=9000".toList, "magnet:?xt=...".toList]
      ["qbittorrent".toList, "--webui-port=9000".toList, "magnet:?xt=...".toList]).effects.filter
        Effect.isSendMessage = [Effect.sendMessage "magnet:?xt=...".toList] ∧
    (main sampleWorld acceptedPref
      ["qbittorrent".toList, "--webui-port=9000".toList]
      ["qbittorrent".toList, "--webui-port=9000".toList]).effects.filter
        Effect.isSendMessage = [Effect.sendMessage "qbt://show".toList] ∧
    (main sampleWorld acceptedPref
      ["qbittorrent".toList, "--webui-port=9000".toList]
      ["qbittorrent".toList, "--webui-port=9000".toList]).exitCode = EXIT_SUCCESS :=
  ⟨(relay_and_exit sampleWorld acceptedPref
      ["qbittorrent".toList, "--webui-port=9000".toList, "magnet:?xt=...".toList]
      ["qbittorrent".toList, "--webui-port=9000".toList, "magnet:?xt=...".toList]
      (by decide) (by decide) (by decide) (Or.inl (by decide)) (by decide) (by decide)).2.1,
    (relay_and_exit sampleWorld acceptedPref
      ["qbittorrent".toList, "--webui-port=9000".toList]
      ["qbittorrent".toList, "--webui-port=9000".toList]
      (by decide) (by decide) (by decide) (Or.inl (by decide)) (by decide) (by decide)).2.1,
    (relay_and_exit sampleWorld acceptedPref
      ["qbittorrent".toList, "--webui-port=9000".toList]
      ["qbittorrent".toList, "--webui-port=9000".toList]
      (by decide) (by decide) (by decide) (Or.inl (by decide)) (by decide) (by decide)).1⟩

/-! ## C8: the consent gate -/

/-- C8: `userAgreesWithLegalNotice` returns true without prompting and without writing
when the record is already true. When the record is false it returns true, after the
prompt and the write of the record, exactly when the answer is affirmative: the key `y` or
`Y` on the console (so not on `EOF`), the "I Agree" button in the GUI. For every other
answer it returns false and the record stays false; a `main` that reached the gate then
returns `EXIT_SUCCESS` with the record still false, having neither asked the arbiter nor
sent a message. -/
theorem consent_gate (w : World) (pref : Preferences) :
    (pref.acceptedLegal = true →
      userAgreesWithLegalNotice w pref = { agreed := true, pref := pref, effects := [] }) ∧
    (pref.acceptedLegal = false → affirmative w = true →
      userAgreesWithLegalNotice w pref =
        { agreed := true, pref := { pref with acceptedLegal := true },
          effects := [Effect.legalNoticePrompt, Effect.setAcceptedLegal] }) ∧
    (pref.acceptedLegal = false → affirmative w = false →
      userAgreesWithLegalNotice w pref =
        { agreed := false, pref := pref, effects := [Effect.legalNoticePrompt] } ∧
      ∀ argv apps : QStringList,
        (parseCommandLine w.gui w.fs apps).showVersion = false →
        (parseCommandLine w.gui w.fs apps).showHelp = false →
        (0 < (parseCommandLine w.gui w.fs apps).webUiPort ∧
          (parseCommandLine w.gui w.fs apps).webUiPort ≤ 65535) →
        (main w pref argv apps).exitCode = EXIT_SUCCESS ∧
        (main w pref argv apps).pref.acceptedLegal = false ∧
        Effect.isRunningQuery ∉ (main w pref argv apps).effects ∧
        ∀ m, Effect.sendMessage m ∉ (main w pref argv apps).effects) ∧
    (w.gui = true → affirmative w = w.agreeClicked) ∧
    (w.gui = false → 0 ≤ w.getcharResult → w.getcharResult < 256 →
      (affirmative w = true ↔
        w.getcharResult = ('y'.toNat : Int) ∨ w.getcharResult = ('Y'.toNat : Int))) ∧
    (w.gui = false → w.getcharResult = -1 → affirmative w = false) := by
  refine ⟨?_, ?_, ?_, ?_, ?_, ?_⟩
  · intro h; simp [userAgreesWithLegalNotice, h]
  · intro h ha; simp [userAgreesWithLegalNotice, h, ha]
  · intro h ha
    refine ⟨by simp [userAgreesWithLegalNotice, h, ha], ?_⟩
    intro argv apps hv hh hp
    unfold main
    generalize parseCommandLine w.gui w.fs apps = params at hv hh hp
    simp only [hv, hh, hp, and_self, if_true, Bool.false_eq_true, if_false]
    have hgate : userAgreesWithLegalNotice w { pref with webUiPort := params.webUiPort } =
        { agreed := false, pref := { pref with webUiPort := params.webUiPort },
          effects := [Effect.legalNoticePrompt] } := by
      simp [userAgreesWithLegalNotice, h, ha]
    rw [hgate]
    cases hq : w.qputenvOk <;> simp [h]
  · intro hg; simp [affirmative, hg]
  · intro hg h0 h1
    have e1 : ('y'.toNat : Int) = 121 := by decide
    have e2 : ('Y'.toNat : Int) = 89 := by decide
    rw [e1, e2]
    have hm : w.getcharResult % 256 = w.getcharResult := Int.emod_eq_of_lt h0 h1
    simp [affirmative, hg, hm]
  · intro hg he
    simp [affirmative, hg, he]

/-- C8, at a headless launch `--webui-port=9000` where the user answers `n`. -/
theorem consent_gate_witness :
    samplePref.acceptedLegal = false ∧ affirmative sampleWorld = false ∧
    (main sampleWorld samplePref ["qbittorrent".toList, "--webui-port=9000".toList] ["qbittorrent".toList, "--webui-port=9000".toList]).exitCode
      = EXIT_SUCCESS ∧
    (main sampleWorld samplePref
      ["qbittorrent".toList, "--webui-port=9000".toList]
      ["qbittorrent".toList, "--webui-port=9000".toList]).pref.acceptedLegal = false ∧
    userAgreesWithLegalNotice sampleWorld acceptedPref =
      { agreed := true, pref := acceptedPref, effects := [] } ∧
    userAgreesWithLegalNotice { sampleWorld with getcharResult := 89 } samplePref =
      { agreed := true, pref := { samplePref with acceptedLegal := true },
        effects := [Effect.legalNoticePrompt, Effect.setAcceptedLegal] } :=
  ⟨by decide, by decide,
    (((consent_gate sampleWorld samplePref).2.2.1 (by decide) (by decide)).2
      ["qbittorrent".toList, "--webui-port=9000".toList]
      ["qbittorrent".toList, "--webui-port=9000".toList] (by decide) (by decide) (by decide)).1,
    (((consent_gate sampleWorld samplePref).2.2.1 (by decide) (by decide)).2
      ["qbittorrent".toList, "--webui-port=9000".toList]
      ["qbittorrent".toList, "--webui-port=9000".toList] (by decide) (by decide) (by decide)).2.1,
    (consent_gate sampleWorld acceptedPref).1 (by decide),
    (consent_gate { sampleWorld with getcharResult := 89 } samplePref).2.1 (by decide)
      (by decide)⟩

/-! ## C9: no state change on usage errors and short-circuits -/

/-- C9: for every argument list on which `main` displays the version or the usage, or
prints the single-parameter error or the bad-port error, the preferences on return are the
initial ones, the legal notice was not shown, no message was sent and the port was not
written. The web UI port is written only on runs without version or help flag whose parsed
port lies in `[1, 65535]`, and the value written is the parsed port. -/
theorem usage_errors_leave_state (w : World) (pref : Preferences)
    (argv apps : QStringList) :
    ((∃ e ∈ (main w pref argv apps).effects, e.usageEnding = true) →
      (main w pref argv apps).pref = pref ∧
      Effect.legalNoticePrompt ∉ (main w pref argv apps).effects ∧
      (∀ m, Effect.sendMessage m ∉ (main w pref argv apps).effects) ∧
      (∀ p, Effect.setWebUiPort p ∉ (main w pref argv apps).effects) ∧
      Effect.setAcceptedLegal ∉ (main w pref argv apps).effects) ∧
    (∀ p, Effect.setWebUiPort p ∈ (main w pref argv apps).effects →
      (parseCommandLine w.gui w.fs apps).showVersion = false ∧
      (parseCommandLine w.gui w.fs apps).showHelp = false ∧
      p = (parseCommandLine w.gui w.fs apps).webUiPort ∧ 0 < p ∧ p ≤ 65535) ∧
    ((main w pref argv apps).pref.webUiPort ≠ pref.webUiPort →
      (parseCommandLine w.gui w.fs apps).showVersion = false ∧
      (parseCommandLine w.gui w.fs apps).showHelp = false ∧
      (main w pref argv apps).pref.webUiPort = (parseCommandLine w.gui w.fs apps).webUiPort ∧
      0 < (parseCommandLine w.gui w.fs apps).webUiPort ∧
      (parseCommandLine w.gui w.fs apps).webUiPort ≤ 65535) := by
  cases hv : (parseCommandLine w.gui w.fs apps).showVersion with
  | true =>
    cases hone : (argv.length == 2) with
    | true =>
      have hm : main w pref argv apps =
          { exitCode := EXIT_SUCCESS, pref := pref, effects := [Effect.displayVersion],
            signals := SigTable.default } := by
        simp only [main, hv, hone]; simp
      rw [hm]
      exact ⟨fun _ => ⟨rfl, by simp, by simp, by simp, by simp⟩, fun p h => by simp at h,
        fun h => absurd rfl h⟩
    | false =>
      have hm : main w pref argv apps =
          { exitCode := EXIT_FAILURE, pref := pref,
            effects := [Effect.displayBadArgMessage BadArg.versionNotSingle],
            signals := SigTable.default } := by
        simp only [main, hv, hone]; simp
      rw [hm]
      exact ⟨fun _ => ⟨rfl, by simp, by simp, by simp, by simp⟩, fun p h => by simp at h,
        fun h => absurd rfl h⟩
  | false =>
    cases hh : (parseCommandLine w.gui w.fs apps).showHelp with
    | true =>
      cases hone : (argv.length == 2) with
      | true =>
        have hm : main w pref argv apps =
            { exitCode := EXIT_SUCCESS, pref := pref, effects := [Effect.displayUsage],
              signals := SigTable.default } := by
          simp only [main, hv, hh, hone]; simp
        rw [hm]
        exact ⟨fun _ => ⟨rfl, by simp, by simp, by simp, by simp⟩, fun p h => by simp at h,
          fun h => absurd rfl h⟩
      | false =>
        have hm : main w pref argv apps =
            { exitCode := EXIT_FAILURE, pref := pref,
              effects := [Effect.displayBadArgMessage BadArg.helpNotSingle],
              signals := SigTable.default } := by
          simp only [main, hv, hh, hone]; simp
        rw [hm]
        exact ⟨fun _ => ⟨rfl, by simp, by simp, by simp, by simp⟩, fun p h => by simp at h,
          fun h => absurd rfl h⟩
    | false =>
      by_cases hp : 0 < (parseCommandLine w.gui w.fs apps).webUiPort ∧
          (parseCommandLine w.gui w.fs apps).webUiPort ≤ 65535
      · obtain ⟨hm1, rest, hm2, hm3⟩ := main_of_valid_port w pref argv apps hv hh hp
        refine ⟨?_, ?_, ?_⟩
        · rintro ⟨e, he, hu⟩
          rw [hm2] at he
          rcases List.mem_cons.mp he with h | h
          · subst h; simp [Effect.usageEnding] at hu
          · have := hm3 e h
            cases e <;> simp_all [Effect.usageEnding, Effect.afterValidation]
        · intro p hmem
          rw [hm2] at hmem
          rcases List.mem_cons.mp hmem with h | h
          · have hpe : p = (parseCommandLine w.gui w.fs apps).webUiPort := by
              injection h
            exact ⟨rfl, rfl, hpe, by rw [hpe]; exact hp.1, by rw [hpe]; exact hp.2⟩
          · have := hm3 _ h
            simp [Effect.afterValidation] at this
        · intro _
          exact ⟨rfl, rfl, hm1, hp.1, hp.2⟩
      · have hm := main_of_bad_port w pref argv apps hv hh hp
        rw [hm]
        exact ⟨fun _ => ⟨rfl, by simp, by simp, by simp, by simp⟩, fun p h => by simp at h,
          fun h => absurd rfl h⟩

/-- C9, at `-v /tmp/a.torrent` (single-parameter error) and at `--webui-port=9000`
(where the port is written). -/
theorem usage_errors_leave_state_witness :
    (∃ e ∈ (main sampleWorld samplePref
        ["qbittorrent".toList, "-v".toList, "/tmp/a.torrent".toList]
        ["qbittorrent".toList, "-v".toList, "/tmp/a.torrent".toList]).effects,
      e.usageEnding = true) ∧
    (main sampleWorld samplePref
      ["qbittorrent".toList, "-v".toList, "/tmp/a.torrent".toList]
      ["qbittorrent".toList, "-v".toList, "/tmp/a.torrent".toList]).pref = samplePref ∧
    Effect.setWebUiPort 9000 ∈
      (main sampleWorld samplePref ["qbittorrent".toList, "--webui-port=9000".toList] ["qbittorrent".toList, "--webui-port=9000".toList]).effects ∧
    ((0 : Int) < 9000 ∧ (9000 : Int) ≤ 65535) :=
  ⟨⟨Effect.displayBadArgMessage BadArg.versionNotSingle, by decide, by decide⟩,
    ((usage_errors_leave_state sampleWorld samplePref
      ["qbittorrent".toList, "-v".toList, "/tmp/a.torrent".toList]
      ["qbittorrent".toList, "-v".toList, "/tmp/a.torrent".toList]).1
      ⟨Effect.displayBadArgMessage BadArg.versionNotSingle, by decide, by decide⟩).1,
    by decide,
    ((usage_errors_leave_state sampleWorld samplePref
      ["qbittorrent".toList, "--webui-port=9000".toList]
      ["qbittorrent".toList, "--webui-port=9000".toList]).2.1 9000 (by decide)).2.2.2⟩

/-! ## C10: single-shot signal handlers -/

theorem deliver_of_default (d : Diagnostics) (fuel : Nat) (st : SigState) (s : Signal)
    (h : st.table.get s = Disposition.SIG_DFL) :
    deliver d (fuel + 1) st s =
      some { st with log := st.log ++ [SigEvent.defaultAction s] } := by
  simp [deliver, h]

theorem deliver_sigint (d : Diagnostics) (fuel : Nat) (t : SigTable) (log : List SigEvent)
    (h : t.sigint = Disposition.handler HandlerFn.sigintHandler) :
    deliver d (fuel + 1) { table := t, log := log } Signal.SIGINT =
      some { table := { t with sigint := Disposition.SIG_DFL },
             log := log ++ [SigEvent.entered HandlerFn.sigintHandler,
               SigEvent.debug Signal.SIGINT, SigEvent.exitRequested] } := by
  simp [deliver, SigTable.get, h, HandlerFn.body, sigintHandler, execStmts, SigTable.signal]

theorem deliver_sigterm (d : Diagnostics) (fuel : Nat) (t : SigTable) (log : List SigEvent)
    (h : t.sigterm = Disposition.handler HandlerFn.sigtermHandler) :
    deliver d (fuel + 1) { table := t, log := log } Signal.SIGTERM =
      some { table := { t with sigterm := Disposition.SIG_DFL },
             log := log ++ [SigEvent.entered HandlerFn.sigtermHandler,
               SigEvent.debug Signal.SIGTERM, SigEvent.exitRequested] } := by
  simp [deliver, SigTable.get, h, HandlerFn.body, sigtermHandler, execStmts, SigTable.signal]

theorem deliver_sigsegv (d : Diagnostics) (fuel : Nat) (t : SigTable) (log : List SigEvent)
    (h : t.sigsegv = Disposition.handler HandlerFn.sigsegvHandler) :
    deliver d (fuel + 2) { table := t, log := log } Signal.SIGSEGV =
      some { table := { t with sigsegv := Disposition.SIG_DFL, sigabrt := Disposition.SIG_DFL },
             log := log ++ [SigEvent.entered HandlerFn.sigsegvHandler] ++
               reportEvents d Signal.SIGSEGV ++ [SigEvent.defaultAction Signal.SIGSEGV] } := by
  cases d <;>
    simp [deliver, SigTable.get, h, HandlerFn.body, sigsegvHandler, execStmts, SigTable.signal,
      faultReport, reportEvents]

theorem deliver_sigabrt (d : Diagnostics) (fuel : Nat) (t : SigTable) (log : List SigEvent)
    (h : t.sigabrt = Disposition.handler HandlerFn.sigabrtHandler) :
    deliver d (fuel + 2) { table := t, log := log } Signal.SIGABRT =
      some { table := { t with sigsegv := Disposition.SIG_DFL, sigabrt := Disposition.SIG_DFL },
             log := log ++ [SigEvent.entered HandlerFn.sigabrtHandler] ++
               reportEvents d Signal.SIGABRT ++ [SigEvent.defaultAction Signal.SIGABRT] } := by
  cases d <;>
    simp [deliver, SigTable.get, h, HandlerFn.body, sigabrtHandler, execStmts, SigTable.signal,
      faultReport, reportEvents]

theorem faultEntries_append (l1 l2 : List SigEvent) :
    faultEntries (l1 ++ l2) = faultEntries l1 + faultEntries l2 := by
  simp [faultEntries, List.countP_append]

theorem faultEntries_reportEvents (d : Diagnostics) (s : Signal) :
    faultEntries (reportEvents d s) = 0 := by
  cases d <;> simp [faultEntries, reportEvents]

/-- One delivery keeps the run well formed, never fails with two units of fuel, and leaves
both fault signals at the default disposition if the signal is a fault signal or if they
were there before. -/
theorem deliver_wellFormed (d : Diagnostics) (fuel : Nat) (st : SigState)
    (h : st.wellFormed) (s : Signal) :
    ∃ st1, deliver d (fuel + 2) st s = some st1 ∧ st1.wellFormed ∧
      ((s.isFault = true ∨
          (st.table.sigsegv = Disposition.SIG_DFL ∧ st.table.sigabrt = Disposition.SIG_DFL)) →
        st1.table.sigsegv = Disposition.SIG_DFL ∧ st1.table.sigabrt = Disposition.SIG_DFL) := by
  obtain ⟨t, log⟩ := st
  obtain ⟨hi, ht, hf⟩ := h
  simp only at hi ht hf
  cases s with
  | SIGINT =>
    rcases hi with hi | hi
    · refine ⟨_, deliver_of_default d (fuel + 1) _ _ (by simpa [SigTable.get] using hi),
        ⟨Or.inl hi, ht, ?_⟩, ?_⟩
      · simpa [faultEntries_append, faultEntries] using hf
      · simp [Signal.isFault]
    · refine ⟨_, deliver_sigint d (fuel + 1) t log hi, ⟨Or.inl rfl, ht, ?_⟩, ?_⟩
      · simpa [faultEntries_append, faultEntries] using hf
      · simp [Signal.isFault]
  | SIGTERM =>
    rcases ht with ht | ht
    · refine ⟨_, deliver_of_default d (fuel + 1) _ _ (by simpa [SigTable.get] using ht),
        ⟨hi, Or.inl ht, ?_⟩, ?_⟩
      · simpa [faultEntries_append, faultEntries] using hf
      · simp [Signal.isFault]
    · refine ⟨_, deliver_sigterm d (fuel + 1) t log ht, ⟨hi, Or.inl rfl, ?_⟩, ?_⟩
      · simpa [faultEntries_append, faultEntries] using hf
      · simp [Signal.isFault]
  | SIGSEGV =>
    rcases hf with ⟨h1, h2, h3⟩ | ⟨h1, h2, h3⟩
    · refine ⟨_, deliver_sigsegv d fuel t log h1, ⟨hi, ht, Or.inr ⟨rfl, rfl, ?_⟩⟩, ?_⟩
      · simp only
        rw [faultEntries_append, faultEntries_append, faultEntries_append,
          faultEntries_reportEvents, h3]
        decide
      · intro _; exact ⟨rfl, rfl⟩
    · refine ⟨_, deliver_of_default d (fuel + 1) _ _ (by simpa [SigTable.get] using h1),
        ⟨hi, ht, Or.inr ⟨h1, h2, ?_⟩⟩, ?_⟩
      · simpa [faultEntries_append, faultEntries] using h3
      · intro _; exact ⟨h1, h2⟩
  | SIGABRT =>
    rcases hf with ⟨h1, h2, h3⟩ | ⟨h1, h2, h3⟩
    · refine ⟨_, deliver_sigabrt d fuel t log h2, ⟨hi, ht, Or.inr ⟨rfl, rfl, ?_⟩⟩, ?_⟩
      · simp only
        rw [faultEntries_append, faultEntries_append, faultEntries_append,
          faultEntries_reportEvents, h3]
        decide
      · intro _; exact ⟨rfl, rfl⟩
    · refine ⟨_, deliver_of_default d (fuel + 1) _ _ (by simpa [SigTable.get] using h2),
        ⟨hi, ht, Or.inr ⟨h1, h2, ?_⟩⟩, ?_⟩
      · simpa [faultEntries_append, faultEntries] using h3
      · intro _; exact ⟨h1, h2⟩

theorem deliverAll_wellFormed (d : Diagnostics) (fuel : Nat) (sigs : List Signal) :
    ∀ st : SigState, st.wellFormed →
      ∃ st1, deliverAll d (fuel + 2) st sigs = some st1 ∧ st1.wellFormed ∧
        (((∃ s ∈ sigs, s.isFault = true) ∨
            (st.table.sigsegv = Disposition.SIG_DFL ∧
              st.table.sigabrt = Disposition.SIG_DFL)) →
          st1.table.sigsegv = Disposition.SIG_DFL ∧
            st1.table.sigabrt = Disposition.SIG_DFL) := by
  induction sigs with
  | nil =>
    intro st h
    refine ⟨st, rfl, h, ?_⟩
    rintro (⟨s, hs, _⟩ | h1)
    · simp at hs
    · exact h1
  | cons s rest ih =>
    intro st h
    obtain ⟨st1, h1, hw1, hd1⟩ := deliver_wellFormed d fuel st h s
    obtain ⟨st2, h2, hw2, hd2⟩ := ih st1 hw1
    refine ⟨st2, by simp [deliverAll, h1, h2], hw2, ?_⟩
    rintro (⟨x, hx, hxf⟩ | hdfl)
    · rcases List.mem_cons.mp hx with hxs | hxr
      · subst hxs
        exact hd2 (Or.inr (hd1 (Or.inl hxf)))
      · exact hd2 (Or.inl ⟨x, hxr, hxf⟩)
    · exact hd2 (Or.inr (hd1 (Or.inr hdfl)))

theorem installed_wellFormed :
    SigState.wellFormed { table := installSignalHandlers SigTable.default, log := [] } := by
  simp [SigState.wellFormed, installSignalHandlers, SigTable.signal, SigTable.default,
    faultEntries]

/-- C10: `sigsegvHandler` and `sigabrtHandler` each begin with the two calls that reset
`SIGABRT` and `SIGSEGV` to the default disposition and end with `raise` of the signal they
handle; run on any table where they are installed, they leave `SIGINT` and `SIGTERM`
untouched and the raised signal meets the default disposition. `sigintHandler` and
`sigtermHandler` reset only their own signal and request application exit. Consequently,
in every run from the table installed by `main`, whatever signals arrive, delivery never
gets stuck, a fault-handler body is entered at most once, and once a fault signal has
arrived both fault signals have the default disposition, so that a further `SIGSEGV` or
`SIGABRT` meets the default action. -/
theorem signal_handlers_single_shot (d : Diagnostics) (fuel : Nat) :
    ((sigsegvHandler d).take 2 =
        [Stmt.signal Signal.SIGABRT Disposition.SIG_DFL,
         Stmt.signal Signal.SIGSEGV Disposition.SIG_DFL] ∧
      (sigsegvHandler d).getLast? = some (Stmt.raise Signal.SIGSEGV)) ∧
    ((sigabrtHandler d).take 2 =
        [Stmt.signal Signal.SIGABRT Disposition.SIG_DFL,
         Stmt.signal Signal.SIGSEGV Disposition.SIG_DFL] ∧
      (sigabrtHandler d).getLast? = some (Stmt.raise Signal.SIGABRT)) ∧
    (∀ (t : SigTable) (log : List SigEvent),
      t.sigsegv = Disposition.handler HandlerFn.sigsegvHandler →
      deliver d (fuel + 2) { table := t, log := log } Signal.SIGSEGV =
        some { table :=
                 { t with sigsegv := Disposition.SIG_DFL, sigabrt := Disposition.SIG_DFL },
               log := log ++ [SigEvent.entered HandlerFn.sigsegvHandler] ++
                 reportEvents d Signal.SIGSEGV ++ [SigEvent.defaultAction Signal.SIGSEGV] }) ∧
    (∀ (t : SigTable) (log : List SigEvent),
      t.sigabrt = Disposition.handler HandlerFn.sigabrtHandler →
      deliver d (fuel + 2) { table := t, log := log } Signal.SIGABRT =
        some { table :=
                 { t with sigsegv := Disposition.SIG_DFL, sigabrt := Disposition.SIG_DFL },
               log := log ++ [SigEvent.entered HandlerFn.sigabrtHandler] ++
                 reportEvents d Signal.SIGABRT ++ [SigEvent.defaultAction Signal.SIGABRT] }) ∧
    (∀ (t : SigTable) (log : List SigEvent),
      t.sigint = Disposition.handler HandlerFn.sigintHandler →
      deliver d (fuel + 2) { table := t, log := log } Signal.SIGINT =
        some { table := { t with sigint := Disposition.SIG_DFL },
               log := log ++ [SigEvent.entered HandlerFn.sigintHandler,
                 SigEvent.debug Signal.SIGINT, SigEvent.exitRequested] }) ∧
    (∀ (t : SigTable) (log : List SigEvent),
      t.sigterm = Disposition.handler HandlerFn.sigtermHandler →
      deliver d (fuel + 2) { table := t, log := log } Signal.SIGTERM =
        some { table := { t with sigterm := Disposition.SIG_DFL },
               log := log ++ [SigEvent.entered HandlerFn.sigtermHandler,
                 SigEvent.debug Signal.SIGTERM, SigEvent.exitRequested] }) ∧
    (∀ sigs : List Signal,
      ∃ st, deliverAll d (fuel + 2)
          { table := installSignalHandlers SigTable.default, log := [] } sigs = some st ∧
        faultEntries st.log ≤ 1 ∧
        ((∃ s ∈ sigs, s.isFault = true) →
          st.table.get Signal.SIGSEGV = Disposition.SIG_DFL ∧
          st.table.get Signal.SIGABRT = Disposition.SIG_DFL ∧
          ∀ s : Signal, s.isFault = true →
            deliver d (fuel + 2) st s =
              some { st with log := st.log ++ [SigEvent.defaultAction s] })) := by
  refine ⟨?_, ?_, deliver_sigsegv d fuel, deliver_sigabrt d fuel,
    deliver_sigint d (fuel + 1), deliver_sigterm d (fuel + 1), ?_⟩
  · cases d <;> exact ⟨rfl, rfl⟩
  · cases d <;> exact ⟨rfl, rfl⟩
  · intro sigs
    obtain ⟨st, h1, hw, hd⟩ := deliverAll_wellFormed d fuel sigs _ installed_wellFormed
    refine ⟨st, h1, ?_, ?_⟩
    · rcases hw.2.2 with ⟨_, _, h0⟩ | ⟨_, _, h0⟩ <;> omega
    · intro hex
      obtain ⟨hs, ha⟩ := hd (Or.inl hex)
      refine ⟨hs, ha, ?_⟩
      intro s hsf
      apply deliver_of_default d (fuel + 1)
      cases s
      · simp [Signal.isFault] at hsf
      · simp [Signal.isFault] at hsf
      · exact hs
      · exact ha

/-- C10, at the run `SIGSEGV`, `SIGABRT`, `SIGSEGV` of a build that prints the stack trace,
and at the table installed by `main`. -/
theorem signal_handlers_single_shot_witness :
    (installSignalHandlers SigTable.default).sigsegv
      = Disposition.handler HandlerFn.sigsegvHandler ∧
    deliver Diagnostics.stderrTrace 2
        { table := installSignalHandlers SigTable.default, log := [] } Signal.SIGSEGV =
      some { table :=
               { installSignalHandlers SigTable.default with
                 sigsegv := Disposition.SIG_DFL, sigabrt := Disposition.SIG_DFL },
             log := [] ++ [SigEvent.entered HandlerFn.sigsegvHandler] ++
               reportEvents Diagnostics.stderrTrace Signal.SIGSEGV ++
               [SigEvent.defaultAction Signal.SIGSEGV] } ∧
    (∃ s ∈ [Signal.SIGSEGV, Signal.SIGABRT, Signal.SIGSEGV], s.isFault = true) ∧
    (∃ st, deliverAll Diagnostics.stderrTrace 2
        { table := installSignalHandlers SigTable.default, log := [] }
        [Signal.SIGSEGV, Signal.SIGABRT, Signal.SIGSEGV] = some st ∧
      faultEntries st.log ≤ 1 ∧
      st.table.get Signal.SIGSEGV = Disposition.SIG_DFL ∧
      st.table.get Signal.SIGABRT = Disposition.SIG_DFL) :=
  ⟨by decide,
    (signal_handlers_single_shot Diagnostics.stderrTrace 0).2.2.1
      (installSignalHandlers SigTable.default) [] (by decide),
    ⟨Signal.SIGSEGV, by decide, by decide⟩,
    match (signal_handlers_single_shot Diagnostics.stderrTrace 0).2.2.2.2.2.2
      [Signal.SIGSEGV, Signal.SIGABRT, Signal.SIGSEGV] with
    | ⟨st, h1, h2, h3⟩ =>
      ⟨st, h1, h2, (h3 ⟨Signal.SIGSEGV, by decide, by decide⟩).1,
        (h3 ⟨Signal.SIGSEGV, by decide, by decide⟩).2.1⟩⟩

/-! ## C11: arbitration between concurrent launches -/

theorem Race.start_consistent (launch : Nat → Launch) : Race.start.consistent launch := by
  intro p
  simp [Race.start]

theorem Race.step_consistent (launch : Nat → Launch) (st : Race)
    (h : st.consistent launch) (p : Nat) : (Race.step launch st p).consistent launch := by
  have hacq : ∀ ph : Bool → Phase, (ph false = Phase.owner ∨ ph false = Phase.beforeReset) →
      (ph true ≠ Phase.owner ∧ ph true ≠ Phase.beforeReset) →
      st.arbiter.holder (applicationId (launch p).userId) ≠ some p →
      Race.consistent launch
        { arbiter := (st.arbiter.isRunning (applicationId (launch p).userId) p).2,
          phase := Function.update st.phase p
            (ph (st.arbiter.isRunning (applicationId (launch p).userId) p).1),
          observed := Function.update st.observed p
            (st.observed p ++ [(st.arbiter.isRunning (applicationId (launch p).userId) p).1]) } := by
    intro ph hfalse htrue hp q
    unfold Arbiter.isRunning
    cases hh : st.arbiter.holder (applicationId (launch p).userId) with
    | none =>
      simp only
      by_cases hq : q = p
      · subst hq
        simp only [Function.update_same, true_iff]
        exact hfalse
      · simp only [Function.update_noteq hq]
        by_cases hid : applicationId (launch q).userId = applicationId (launch p).userId
        · rw [hid, Function.update_same]
          have hold := h q
          rw [hid, hh] at hold
          constructor
          · intro hc; exact absurd (Option.some.inj hc).symm hq
          · intro hc; exact absurd (hold.mpr hc) (by simp)
        · rw [Function.update_noteq hid]
          exact h q
    | some x =>
      have hx : x ≠ p := fun hc => hp (by rw [hh, hc])
      simp only [hx, if_false]
      by_cases hq : q = p
      · subst hq
        simp only [Function.update_same, hh]
        constructor
        · intro hc; exact absurd (Option.some.inj hc) hx
        · intro hc; rcases hc with hc | hc
          · exact absurd hc htrue.1
          · exact absurd hc htrue.2
      · simp only [Function.update_noteq hq]
        exact h q
  intro q
  unfold Race.step
  cases hph : st.phase p with
  | atCheck =>
    have hp : st.arbiter.holder (applicationId (launch p).userId) ≠ some p := by
      intro hc
      have := (h p).mp hc
      rw [hph] at this
      simp at this
    exact hacq (afterCheck (launch p))
      (by unfold afterCheck; cases (launch p).daemon <;> simp)
      (by unfold afterCheck; cases (launch p).daemon <;> simp) hp q
  | beforeReset =>
    have hp : st.arbiter.holder (applicationId (launch p).userId) = some p :=
      (h p).mpr (Or.inr hph)
    simp only [Arbiter.release, hp, if_true]
    by_cases hq : q = p
    · subst hq
      simp
    · simp only [Function.update_noteq hq]
      by_cases hid : applicationId (launch q).userId = applicationId (launch p).userId
      · rw [hid, Function.update_same]
        have hold := h q
        rw [hid, hp] at hold
        constructor
        · intro hc; exact absurd hc (by simp)
        · intro hc; exact absurd (Option.some.inj (hold.mpr hc)).symm hq
      · rw [Function.update_noteq hid]
        exact h q
  | afterReset =>
    have hp : st.arbiter.holder (applicationId (launch p).userId) ≠ some p := by
      intro hc
      have := (h p).mp hc
      rw [hph] at this
      simp at this
    cases hd : (launch p).w.daemonOk with
    | true =>
      simp only [if_true]
      exact hacq (afterDaemon (launch p))
        (by unfold afterDaemon; simp [hd])
        (by unfold afterDaemon; simp [hd]) hp q
    | false =>
      simp only [Bool.false_eq_true, if_false]
      by_cases hq : q = p
      · subst hq
        simp only [Function.update_same, afterDaemon, hd, Bool.false_eq_true, if_false]
        constructor
        · intro hc; exact absurd hc hp
        · intro hc; simp at hc
      · simp only [Function.update_noteq hq]
        exact h q
  | owner => simp only; exact h q
  | client => simp only; exact h q
  | failed => simp only; exact h q

theorem Race.run_consistent (launch : Nat → Launch) (schedule : List Nat) :
    (Race.run launch schedule).consistent launch := by
  unfold Race.run
  have hgen : ∀ st : Race, st.consistent launch →
      (schedule.foldl (Race.step launch) st).consistent launch := by
    induction schedule with
    | nil => intro st h; exact h
    | cons p rest ih => intro st h; exact ih _ (Race.step_consistent launch st h p)
  exact hgen _ (Race.start_consistent launch)

theorem Race.step_start_settled (launch : Nat → Launch) (p : Nat)
    (hd : (launch p).daemon = false) :
    (Race.step launch Race.start p).settled launch p [p] := by
  unfold Race.settled Race.step
  simp only [Race.start, Arbiter.isRunning, afterCheck, hd, Function.update_same,
    Bool.false_eq_true, if_false, List.nil_append, List.mem_singleton, true_and]
  refine ⟨?_, ?_⟩
  · intro q hq hne; exact absurd hq hne
  · intro q hq
    simp [Function.update_noteq hq]

theorem Race.step_settled (launch : Nat → Launch) (st : Race) (first : Nat)
    (moved : List Nat) (h : st.settled launch first moved) (p : Nat)
    (hid : (launch p).userId = (launch first).userId) (hd : (launch p).daemon = false) :
    (Race.step launch st p).settled launch first (p :: moved) := by
  obtain ⟨hhold, hph, hobs, hmem, hmoved, hrest⟩ := h
  by_cases hpf : p = first
  · subst hpf
    have hstep : Race.step launch st p = st := by simp [Race.step, hph]
    rw [hstep]
    refine ⟨hhold, hph, hobs, List.mem_cons_self _ _, ?_, ?_⟩
    · intro q hq hne
      rcases List.mem_cons.mp hq with h1 | h1
      · exact absurd h1 hne
      · exact hmoved q h1 hne
    · intro q hq
      exact hrest q (fun hc => hq (List.mem_cons_of_mem _ hc))
  · by_cases hpm : p ∈ moved
    · have hstep : Race.step launch st p = st := by simp [Race.step, (hmoved p hpm hpf).1]
      rw [hstep]
      refine ⟨hhold, hph, hobs, List.mem_cons_of_mem _ hmem, ?_, ?_⟩
      · intro q hq hne
        rcases List.mem_cons.mp hq with h1 | h1
        · rw [h1]; exact hmoved p hpm hpf
        · exact hmoved q h1 hne
      · intro q hq
        exact hrest q (fun hc => hq (List.mem_cons_of_mem _ hc))
    · obtain ⟨hp1, hp2⟩ := hrest p hpm
      have hne : first ≠ p := fun hc => hpf hc.symm
      have hrun : st.arbiter.isRunning (applicationId (launch p).userId) p = (true, st.arbiter) := by
        simp [Arbiter.isRunning, hid, hhold, hne]
      have hstep : Race.step launch st p =
          { arbiter := st.arbiter, phase := Function.update st.phase p Phase.client,
            observed := Function.update st.observed p [true] } := by
        simp [Race.step, hp1, hp2, hrun, afterCheck, hd]
      rw [hstep]
      refine ⟨hhold, ?_, ?_, List.mem_cons_of_mem _ hmem, ?_, ?_⟩
      · simp only [Function.update_noteq hne]; exact hph
      · simp only [Function.update_noteq hne]; exact hobs
      · intro q hq hqf
        rcases List.mem_cons.mp hq with h1 | h1
        · subst h1; simp
        · have hqp : q ≠ p := fun hc => hpm (hc ▸ h1)
          simp only [Function.update_noteq hqp]
          exact hmoved q h1 hqf
      · intro q hq
        have hqp : q ≠ p := fun hc => hq (hc ▸ List.mem_cons_self _ _)
        simp only [Function.update_noteq hqp]
        exact hrest q (fun hc => hq (List.mem_cons_of_mem _ hc))

theorem Race.foldl_settled (launch : Nat → Launch) (first : Nat) (rest : List Nat) :
    ∀ (st : Race) (moved : List Nat), st.settled launch first moved →
      (∀ p ∈ rest, (launch p).userId = (launch first).userId ∧ (launch p).daemon = false) →
      ∃ moved1, (rest.foldl (Race.step launch) st).settled launch first moved1 ∧
        ∀ q, q ∈ moved1 ↔ (q ∈ moved ∨ q ∈ rest) := by
  induction rest with
  | nil =>
    intro st moved h _
    exact ⟨moved, h, fun q => by simp⟩
  | cons p rest ih =>
    intro st moved h hall
    obtain ⟨hid, hd⟩ := hall p (List.mem_cons_self _ _)
    obtain ⟨moved1, h1, h2⟩ := ih _ (p :: moved) (Race.step_settled launch st first moved h p hid hd)
      (fun q hq => hall q (List.mem_cons_of_mem _ hq))
    refine ⟨moved1, h1, fun q => ?_⟩
    rw [h2 q]
    simp only [List.mem_cons]
    tauto

theorem Race.start_traced (launch : Nat → Launch) : Race.start.traced launch := by
  intro p
  simp [Race.start]

theorem Race.step_traced (launch : Nat → Launch) (st : Race) (h : st.traced launch)
    (p : Nat) : (Race.step launch st p).traced launch := by
  intro q
  by_cases hq : q = p
  · subst hq
    obtain ⟨h1, h2, h3⟩ := h q
    unfold Race.step
    cases hph : st.phase q with
    | atCheck =>
      have hobs := h1 hph
      simp only [Function.update_same, hobs, List.nil_append]
      generalize (st.arbiter.isRunning (applicationId (launch q).userId) q).1 = b
      cases b <;> cases hd : (launch q).daemon <;>
        simp [afterCheck, hd, Launch.finalPhase]
    | beforeReset =>
      obtain ⟨hobs, hd⟩ := h2 (Or.inl hph)
      simp [hobs, hd]
    | afterReset =>
      obtain ⟨hobs, hd⟩ := h2 (Or.inr hph)
      cases hok : (launch q).w.daemonOk with
      | true =>
        simp only [if_true, Function.update_same, hobs]
        generalize (st.arbiter.isRunning (applicationId (launch q).userId) q).1 = b
        cases b <;> simp [afterCheck, afterDaemon, hd, hok, Launch.finalPhase]
      | false =>
        simp [hobs, afterCheck, afterDaemon, hd, hok, Launch.finalPhase]
    | owner => simp only [hph] at h3 ⊢; simpa [hph] using h3
    | client => simp only [hph] at h3 ⊢; simpa [hph] using h3
    | failed => simp only [hph] at h3 ⊢; simpa [hph] using h3
  · have hphase : (Race.step launch st p).phase q = st.phase q := by
      unfold Race.step
      cases hph : st.phase p <;> simp only [Function.update_noteq hq]
      split_ifs <;> simp only [Function.update_noteq hq]
    have hobs : (Race.step launch st p).observed q = st.observed q := by
      unfold Race.step
      cases hph : st.phase p <;> simp only [Function.update_noteq hq]
      split_ifs <;> simp only [Function.update_noteq hq]
    rw [hphase, hobs]
    exact h q

theorem Race.run_traced (launch : Nat → Launch) (schedule : List Nat) :
    (Race.run launch schedule).traced launch := by
  unfold Race.run
  have hgen : ∀ st : Race, st.traced launch →
      (schedule.foldl (Race.step launch) st).traced launch := by
    induction schedule with
    | nil => intro st h; exact h
    | cons p rest ih => intro st h; exact ih _ (Race.step_traced launch st h p)
  exact hgen _ (Race.start_traced launch)

theorem runAsOwner_phase (w : World) (params : QbtCommandLineParameters) (pref : Preferences)
    (done : List Effect) (h1 : Effect.exec ∉ done)
    (h2 : done.any Effect.isSendMessage = false) :
    (runAsOwner w params pref done).phase =
      some (if w.gui then Phase.owner
        else if params.shouldDaemonize then
          if w.daemonOk then
            if w.isRunningAfterDaemon then Phase.failed else Phase.owner
          else Phase.failed
        else Phase.owner) := by
  unfold runAsOwner Outcome.phase
  cases w.gui <;> cases params.shouldDaemonize <;> cases w.daemonOk <;>
    cases w.isRunningAfterDaemon <;> cases w.hasSignals <;>
    cases (params.noSplash || pref.splashScreenDisabled) <;>
    simp [h1, h2, List.any_append, Effect.isSendMessage]

/-- The phase `main` shows, when it reaches line 183 and gets the answers `b1` and `b2`
from `isRunning()`, is the one the race model assigns: in particular a launch the model
calls failed returned `EXIT_FAILURE`, and one it calls client returned `EXIT_SUCCESS`. -/
theorem main_phase (l : Launch) (h : l.reachesArbitration) (b1 b2 : Bool) :
    (main { l.w with isRunning := b1, isRunningAfterDaemon := b2 } l.pref l.argv
        l.appArguments).phase =
      some (l.finalPhase b1 b2) := by
  obtain ⟨hv, hh, hp, hg⟩ := h
  unfold main Launch.finalPhase afterCheck afterDaemon Launch.daemon
  simp only
  generalize parseCommandLine l.w.gui l.w.fs l.appArguments = params at hv hh hp
  simp only [hv, hh, hp, and_self, if_true, Bool.false_eq_true, if_false]
  have hgate : ∃ pref1 eff,
      userAgreesWithLegalNotice { l.w with isRunning := b1, isRunningAfterDaemon := b2 }
          { l.pref with webUiPort := params.webUiPort } =
        { agreed := true, pref := pref1, effects := eff } ∧
      Effect.exec ∉ eff ∧ eff.any Effect.isSendMessage = false := by
    unfold userAgreesWithLegalNotice
    by_cases ha : l.pref.acceptedLegal = true
    · exact ⟨{ l.pref with webUiPort := params.webUiPort }, [], by simp [ha], by simp, rfl⟩
    · have haff : affirmative { l.w with isRunning := b1, isRunningAfterDaemon := b2 } = true := by
        rcases hg with hg | hg
        · exact absurd hg ha
        · exact hg
      exact ⟨{ l.pref with webUiPort := params.webUiPort, acceptedLegal := true },
        [Effect.legalNoticePrompt, Effect.setAcceptedLegal], by simp [ha, haff], by simp, rfl⟩
  obtain ⟨pref1, eff, hgeq, he1, he2⟩ := hgate
  rw [hgeq]
  simp only [Bool.not_true, Bool.false_eq_true, if_false]
  have hdone1 : Effect.exec ∉
      (Effect.setWebUiPort params.webUiPort ::
        if l.w.qputenvOk = true then [] else [Effect.envWarning]) ++ eff := by
    cases l.w.qputenvOk <;> simp [he1]
  have hdone2 : ((Effect.setWebUiPort params.webUiPort ::
        if l.w.qputenvOk = true then [] else [Effect.envWarning]) ++ eff).any
        Effect.isSendMessage = false := by
    cases l.w.qputenvOk <;> simp [List.any_append, Effect.isSendMessage, he2]
  generalize (Effect.setWebUiPort params.webUiPort ::
        if l.w.qputenvOk = true then [] else [Effect.envWarning]) ++ eff = done at hdone1 hdone2
  cases b1 with
  | true =>
    cases hgui : l.w.gui <;> cases hsd : params.shouldDaemonize <;>
      cases ht : params.torrents <;>
      simp [Outcome.phase, hdone1, hdone2, List.any_append, Effect.isSendMessage,
        EXIT_SUCCESS, EXIT_FAILURE]
  | false =>
    simp only [Bool.false_eq_true, if_false]
    rw [runAsOwner_phase _ _ _ _ (by simp [hdone1])
      (by simp [List.any_append, hdone2, Effect.isSendMessage])]
    cases hgui : l.w.gui <;> cases hsd : params.shouldDaemonize <;>
      cases hok : l.w.daemonOk <;> cases b2 <;> simp

theorem Outcome.phase_spec (o : Outcome) (ph : Phase) (h : o.phase = some ph) :
    (ph = Phase.owner →
      Effect.exec ∈ o.effects ∧ o.effects.any Effect.isSendMessage = false) ∧
    (ph = Phase.client →
      o.exitCode = EXIT_SUCCESS ∧ o.effects.any Effect.isSendMessage = true ∧
        Effect.exec ∉ o.effects) ∧
    (ph = Phase.failed →
      o.exitCode = EXIT_FAILURE ∧ o.effects.any Effect.isSendMessage = false ∧
        Effect.exec ∉ o.effects) := by
  unfold Outcome.phase at h
  split_ifs at h with h1 h2 h3 h4 h5 <;> simp at h <;> subst h <;> simp_all

theorem Race.mainOf_phase (launch : Nat → Launch) (schedule : List Nat) (p : Nat)
    (harb : (launch p).reachesArbitration)
    (hfin : (Race.run launch schedule).phase p = Phase.owner ∨
      (Race.run launch schedule).phase p = Phase.client ∨
      (Race.run launch schedule).phase p = Phase.failed) :
    (Race.mainOf launch (Race.run launch schedule) p).phase =
      some ((Race.run launch schedule).phase p) := by
  unfold Race.mainOf
  rw [main_phase (launch p) harb]
  exact congrArg some (((Race.run_traced launch schedule) p).2.2 hfin).symm

theorem Race.daemon_loser_failed (launch : Nat → Launch) (schedule : List Nat) (p : Nat)
    (hd : (launch p).daemon = true)
    (hobs : (Race.run launch schedule).observed p = [true] ∨
      (Race.run launch schedule).observed p = [false, true]) :
    (Race.run launch schedule).phase p = Phase.failed := by
  obtain ⟨h1, h2, h3⟩ := (Race.run_traced launch schedule) p
  have hfin : (Race.run launch schedule).phase p = Phase.owner ∨
      (Race.run launch schedule).phase p = Phase.client ∨
      (Race.run launch schedule).phase p = Phase.failed := by
    cases hph : (Race.run launch schedule).phase p with
    | atCheck =>
      have := h1 hph
      rcases hobs with hobs | hobs <;> rw [hobs] at this <;> simp at this
    | beforeReset =>
      have := (h2 (Or.inl hph)).1
      rcases hobs with hobs | hobs <;> rw [hobs] at this <;> simp at this
    | afterReset =>
      have := (h2 (Or.inr hph)).1
      rcases hobs with hobs | hobs <;> rw [hobs] at this <;> simp at this
    | owner => simp
    | client => simp
    | failed => simp
  rw [h3 hfin]
  rcases hobs with hobs | hobs <;> rw [hobs] <;>
    cases hok : (launch p).w.daemonOk <;>
    simp [Launch.finalPhase, afterCheck, afterDaemon, hd, hok]

/-- C11 (the claim as stated fails): two headless launches for the same user reach the
check of line 183, launch `0` with `-d`. Under the schedule where launch `0` calls
`isRunning()` and destroys its application, launch `1` then calls `isRunning()`, and
launch `0` calls it again after `daemon()`, both launches observe `isRunning() = false`;
launch `1` is the owner and launch `0`, whose `main` returns `EXIT_FAILURE`, is neither
owner nor client. -/
theorem race_two_launches_observe_not_running :
    (sampleLaunch 0).reachesArbitration ∧ (sampleLaunch 1).reachesArbitration ∧
    (sampleLaunch 0).userId = (sampleLaunch 1).userId ∧
    (Race.run sampleLaunch [0, 0, 1, 0]).observed 0 = [false, true] ∧
    (Race.run sampleLaunch [0, 0, 1, 0]).observed 1 = [false] ∧
    (Race.run sampleLaunch [0, 0, 1, 0]).phase 0 = Phase.failed ∧
    (Race.run sampleLaunch [0, 0, 1, 0]).phase 1 = Phase.owner ∧
    (Race.mainOf sampleLaunch (Race.run sampleLaunch [0, 0, 1, 0]) 0).exitCode
      = EXIT_FAILURE ∧
    ¬ (Race.run sampleLaunch [0, 0, 1, 0]).singleOwnership 2 := by
  have h0 : (Race.run sampleLaunch [0, 0, 1, 0]).observed 0 = [false, true] := by decide
  refine ⟨by unfold Launch.reachesArbitration; decide,
    by unfold Launch.reachesArbitration; decide, by decide, h0, by decide, by decide,
    by decide, by decide, ?_⟩
  rintro ⟨p, hp, hobs, _, hall⟩
  have hp2 : p = 0 ∨ p = 1 := by omega
  rcases hp2 with hp2 | hp2
  · subst hp2
    rw [h0] at hobs
    exact absurd hobs (by decide)
  · subst hp2
    have h1 := (hall 0 (by decide) (by decide)).1
    rw [h0] at h1
    exact absurd h1 (by decide)

/-- C11 (amended): with the arbiter an atomic check-and-acquire, for every family of
launches and every schedule:
no two launches with the same application identity are both owner;
for every set of `n` launches with the same identity of which none requests daemon mode,
once each has taken its step, exactly one got `false` from `isRunning()` and is the owner,
and every other one got `true` and is a client;
for a finished launch whose `main` reaches line 183, `main` run with the answers the
arbiter gave enters the event loop without sending a message if the launch is the owner,
sends a message and returns `EXIT_SUCCESS` without entering the event loop if it is a
client, and returns `EXIT_FAILURE` with neither if it is failed;
a daemon-mode launch that got `true`, at its first call or at its second call after a
first `false`, is failed, so its `main` returns `EXIT_FAILURE`;
and a daemon-mode launch between `app.reset()` and its second call does not hold the
resource. -/
theorem single_ownership (launch : Nat → Launch) (schedule : List Nat) :
    (∀ p q, (launch p).userId = (launch q).userId →
      (Race.run launch schedule).phase p = Phase.owner →
      (Race.run launch schedule).phase q = Phase.owner → p = q) ∧
    (∀ n, 0 < n → (∀ p, p ∈ schedule ↔ p < n) →
      (∀ p, p < n →
        (launch p).userId = (launch 0).userId ∧ (launch p).daemon = false) →
      (Race.run launch schedule).singleOwnership n) ∧
    (∀ p, (launch p).reachesArbitration →
      ((Race.run launch schedule).phase p = Phase.owner →
        Effect.exec ∈ (Race.mainOf launch (Race.run launch schedule) p).effects ∧
        (Race.mainOf launch (Race.run launch schedule) p).effects.any Effect.isSendMessage
          = false) ∧
      ((Race.run launch schedule).phase p = Phase.client →
        (Race.mainOf launch (Race.run launch schedule) p).exitCode = EXIT_SUCCESS ∧
        (Race.mainOf launch (Race.run launch schedule) p).effects.any Effect.isSendMessage
          = true ∧
        Effect.exec ∉ (Race.mainOf launch (Race.run launch schedule) p).effects) ∧
      ((Race.run launch schedule).phase p = Phase.failed →
        (Race.mainOf launch (Race.run launch schedule) p).exitCode = EXIT_FAILURE ∧
        (Race.mainOf launch (Race.run launch schedule) p).effects.any Effect.isSendMessage
          = false ∧
        Effect.exec ∉ (Race.mainOf launch (Race.run launch schedule) p).effects)) ∧
    (∀ p, (launch p).daemon = true →
      ((Race.run launch schedule).observed p = [true] ∨
        (Race.run launch schedule).observed p = [false, true]) →
      (Race.run launch schedule).phase p = Phase.failed ∧
      ((launch p).reachesArbitration →
        (Race.mainOf launch (Race.run launch schedule) p).exitCode = EXIT_FAILURE)) ∧
    (∀ p, (Race.run launch schedule).phase p = Phase.afterReset →
      (Race.run launch schedule).arbiter.holder (applicationId (launch p).userId)
        ≠ some p) := by
  refine ⟨?_, ?_, ?_, ?_, ?_⟩
  · intro p q hid hp hq
    have hc := Race.run_consistent launch schedule
    have h1 := (hc p).mpr (Or.inl hp)
    have h2 := (hc q).mpr (Or.inl hq)
    rw [hid, h2] at h1
    exact (Option.some.inj h1).symm
  · intro n hn hsched hall
    cases hs : schedule with
    | nil =>
      have : (0 : Nat) ∈ schedule := (hsched 0).mpr hn
      rw [hs] at this
      simp at this
    | cons p0 rest =>
      have hp0 : p0 < n := (hsched p0).mp (by rw [hs]; exact List.mem_cons_self _ _)
      have hrest : ∀ p ∈ rest,
          (launch p).userId = (launch p0).userId ∧ (launch p).daemon = false := by
        intro p hp
        have hpn : p < n := (hsched p).mp (by rw [hs]; exact List.mem_cons_of_mem _ hp)
        exact ⟨by rw [(hall p hpn).1, (hall p0 hp0).1], (hall p hpn).2⟩
      obtain ⟨moved, hset, hmem⟩ := Race.foldl_settled launch p0 rest _ [p0]
        (Race.step_start_settled launch p0 (hall p0 hp0).2) hrest
      obtain ⟨_, hph, hobs, _, hmoved, _⟩ := hset
      refine ⟨p0, hp0, hobs, hph, ?_⟩
      intro q hq hne
      have hqs : q ∈ schedule := (hsched q).mpr hq
      rw [hs] at hqs
      have hqm : q ∈ moved := (hmem q).mpr (by
        rcases List.mem_cons.mp hqs with h1 | h1
        · exact Or.inl (by simp [h1])
        · exact Or.inr h1)
      exact ⟨(hmoved q hqm hne).2, (hmoved q hqm hne).1⟩
  · intro p harb
    refine ⟨fun hph => ?_, fun hph => ?_, fun hph => ?_⟩
    · exact (Outcome.phase_spec _ _
        (Race.mainOf_phase launch schedule p harb (Or.inl hph))).1 hph
    · exact (Outcome.phase_spec _ _
        (Race.mainOf_phase launch schedule p harb (Or.inr (Or.inl hph)))).2.1 hph
    · exact (Outcome.phase_spec _ _
        (Race.mainOf_phase launch schedule p harb (Or.inr (Or.inr hph)))).2.2 hph
  · intro p hd hobs
    have hph := Race.daemon_loser_failed launch schedule p hd hobs
    refine ⟨hph, fun harb => ?_⟩
    exact ((Outcome.phase_spec _ _
      (Race.mainOf_phase launch schedule p harb (Or.inr (Or.inr hph)))).2.2 hph).1
  · intro p hph hc
    have := ((Race.run_consistent launch schedule) p).mp hc
    rw [hph] at this
    simp at this

/-- C11 (amended), at three launches of a GUI build for the same user, scheduled in the
order `2`, `0`, `1`, where launch `2` is the owner, and at the daemon-mode launch `0` of
two headless launches, which gets `false`, then `true`, and fails. -/
theorem single_ownership_witness :
    (0 < 3) ∧ (∀ p, p ∈ [2, 0, 1] ↔ p < 3) ∧
    (∀ p, p < 3 → (sampleGuiLaunch p).userId = (sampleGuiLaunch 0).userId ∧
      (sampleGuiLaunch p).daemon = false) ∧
    (Race.run sampleGuiLaunch [2, 0, 1]).singleOwnership 3 ∧
    (Race.run sampleGuiLaunch [2, 0, 1]).phase 2 = Phase.owner ∧
    ((sampleLaunch 0).daemon = true ∧ (sampleLaunch 0).reachesArbitration ∧
      (Race.run sampleLaunch [0, 0, 1, 0]).observed 0 = [false, true] ∧
      (Race.mainOf sampleLaunch (Race.run sampleLaunch [0, 0, 1, 0]) 0).exitCode
        = EXIT_FAILURE) :=
  ⟨by decide,
    fun p => by simp only [List.mem_cons, List.mem_singleton, List.mem_nil_iff, or_false]; omega,
    fun _ _ => ⟨rfl, rfl⟩,
    (single_ownership sampleGuiLaunch [2, 0, 1]).2.1 3 (by decide)
      (fun p => by
        simp only [List.mem_cons, List.mem_singleton, List.mem_nil_iff, or_false]; omega)
      (fun _ _ => ⟨rfl, rfl⟩),
    by decide,
    ⟨by decide, by unfold Launch.reachesArbitration; decide, by decide,
      ((single_ownership sampleLaunch [0, 0, 1, 0]).2.2.2.1 0 (by decide)
        (Or.inr (by decide))).2 (by unfold Launch.reachesArbitration; decide)⟩⟩

end Qbt
